import Mathlib

/-!
Verification development for the core runtime of a specification-faithful
ECMAScript interpreter (engine262-style).  Each definition is a shallow
embedding of the corresponding function of the source tree; theorems settle
the stated properties of those functions.
-/

namespace Engine262

/-- Model of the observable value of an ECMAScript Number.  IEEE doubles are
embedded by their value: NaN, the two infinities, negative zero, and every
finite nonzero-or-positive-zero value as a rational (`q 0` is positive zero).
The rationals are a superset of the finite doubles; every operation below is
defined uniformly on finite values exactly as the specification defines it,
so theorems quantified over this type cover all doubles. -/
inductive JSNum where
  | nan
  | inf
  | ninf
  | nzero
  | q (x : ℚ)
deriving DecidableEq, Repr

/-- Number::sameValue from src/src/value.mts: NaN equals NaN, positive and
negative zero are distinct, otherwise value equality. -/
def JSNum.sameValue : JSNum → JSNum → Bool
  | .nan, .nan => true
  | .inf, .inf => true
  | .ninf, .ninf => true
  | .nzero, .nzero => true
  | .q a, .q b => a == b
  | _, _ => false

/-- The host `===` comparison on numbers (Number::equal): NaN is unequal to
everything, positive and negative zero are equal. -/
def JSNum.jsEqual : JSNum → JSNum → Bool
  | .nan, _ => false
  | _, .nan => false
  | .inf, .inf => true
  | .ninf, .ninf => true
  | .nzero, .nzero => true
  | .nzero, .q b => b == 0
  | .q a, .nzero => a == 0
  | .q a, .q b => a == b
  | _, _ => false

/-- ECMAScript language values as needed by the object model: strings are
sequences of UTF-16 code units, symbols and objects are reference identities. -/
inductive JSVal where
  | undef
  | null
  | bool (b : Bool)
  | str (s : List Nat)
  | num (n : JSNum)
  | big (i : Int)
  | sym (id : Nat)
  | obj (id : Nat)
deriving DecidableEq, Repr

/-- Modelled from the spec: SameValue.  Structural on primitives (numbers via
Number::sameValue), reference identity on symbols and objects. -/
def SameValue : JSVal → JSVal → Bool
  | .num a, .num b => a.sameValue b
  | a, b => a == b

/-- A property descriptor: a six-field partial record, `none` meaning the
field is absent (src/src/value.mts `Descriptor`). -/
structure Descriptor where
  Value : Option JSVal := none
  Get : Option JSVal := none
  Set : Option JSVal := none
  Writable : Option Bool := none
  Enumerable : Option Bool := none
  Configurable : Option Bool := none
deriving DecidableEq, Repr

/-- Descriptor.everyFieldIsAbsent from src/src/value.mts. -/
def Descriptor.everyFieldIsAbsent (d : Descriptor) : Bool :=
  d.Value == none && d.Get == none && d.Set == none &&
  d.Writable == none && d.Enumerable == none && d.Configurable == none

/-- Modelled from the spec: IsAccessorDescriptor (Get or Set present). -/
def IsAccessorDescriptor (d : Descriptor) : Bool :=
  d.Get.isSome || d.Set.isSome

/-- Modelled from the spec: IsDataDescriptor (Value or Writable present). -/
def IsDataDescriptor (d : Descriptor) : Bool :=
  d.Value.isSome || d.Writable.isSome

/-- Modelled from the spec: IsGenericDescriptor (neither data nor accessor). -/
def IsGenericDescriptor (d : Descriptor) : Bool :=
  !(IsAccessorDescriptor d) && !(IsDataDescriptor d)

/-- An object's `properties`: an insertion-ordered mapping from property key
to descriptor (host `Map` semantics). -/
abbrev PropMap := List (JSVal × Descriptor)

/-- Map lookup (`properties.get`). -/
def mapGet (m : PropMap) (k : JSVal) : Option Descriptor :=
  (m.find? (fun e => e.1 == k)).map (fun e => e.2)

/-- Map update (`properties.set`): replaces in place when the key is present
(preserving its position in insertion order), appends otherwise. -/
def mapSet : PropMap → JSVal → Descriptor → PropMap
  | [], k, d => [(k, d)]
  | (k0, d0) :: rest, k, d =>
      if k0 == k then (k, d) :: rest else (k0, d0) :: mapSet rest k d

/-- Map removal (`properties.delete`). -/
def mapDelete : PropMap → JSVal → PropMap
  | [], _ => []
  | (k0, d0) :: rest, k =>
      if k0 == k then rest else (k0, d0) :: mapDelete rest k

/-- The final block of ValidateAndApplyPropertyDescriptor: merge every field
present in `Desc` into the stored entry for `P` (when `O` is an object).  The
`none` lookup branch leaves the map unchanged; it is unreachable whenever
`current` really is the stored property of `O`. -/
def applyDescFields (O : Option PropMap) (P : JSVal) (Desc : Descriptor) :
    Option PropMap :=
  match O with
  | none => none
  | some props =>
    match mapGet props P with
    | none => some props
    | some target =>
        some (mapSet props P
          { Value := Desc.Value <|> target.Value
            Get := Desc.Get <|> target.Get
            Set := Desc.Set <|> target.Set
            Writable := Desc.Writable <|> target.Writable
            Enumerable := Desc.Enumerable <|> target.Enumerable
            Configurable := Desc.Configurable <|> target.Configurable })

/-- Kind change data → accessor inside ValidateAndApplyPropertyDescriptor:
the stored entry drops Value/Writable and gains Get/Set holding undefined. -/
def convertToAccessor (O : Option PropMap) (P : JSVal) : Option PropMap :=
  match O with
  | none => none
  | some props =>
    match mapGet props P with
    | none => some props
    | some entry =>
        some (mapSet props P
          { entry with Value := none, Writable := none,
                       Get := some .undef, Set := some .undef })

/-- Kind change accessor → data inside ValidateAndApplyPropertyDescriptor:
the stored entry drops Get/Set and gains Value undefined, Writable false. -/
def convertToData (O : Option PropMap) (P : JSVal) : Option PropMap :=
  match O with
  | none => none
  | some props =>
    match mapGet props P with
    | none => some props
    | some entry =>
        some (mapSet props P
          { entry with Get := none, Set := none,
                       Value := some .undef, Writable := some false })

/-- ValidateAndApplyPropertyDescriptor
(src/src/abstract-ops/arraybuffer-objects.mts, 9.1.6.3).  `O = none` models
the undefined object of IsCompatiblePropertyDescriptor.  The source returns a
BooleanValue directly (no completion record can be produced); the model
mirrors that with a plain `Bool` paired with the possibly-updated property
map. -/
def ValidateAndApplyPropertyDescriptor (O : Option PropMap) (P : JSVal)
    (extensible : Bool) (Desc : Descriptor) (current : Option Descriptor) :
    Bool × Option PropMap :=
  match current with
  | none =>
    if extensible = false then (false, O)
    else
      if IsGenericDescriptor Desc || IsDataDescriptor Desc then
        match O with
        | none => (true, none)
        | some props =>
            (true, some (mapSet props P
              { Value := some (Desc.Value.getD .undef)
                Writable := some (Desc.Writable.getD false)
                Enumerable := some (Desc.Enumerable.getD false)
                Configurable := some (Desc.Configurable.getD false) }))
      else
        match O with
        | none => (true, none)
        | some props =>
            (true, some (mapSet props P
              { Get := some (Desc.Get.getD .undef)
                Set := some (Desc.Set.getD .undef)
                Enumerable := some (Desc.Enumerable.getD false)
                Configurable := some (Desc.Configurable.getD false) }))
  | some cur =>
    if Desc.everyFieldIsAbsent then (true, O)
    else if cur.Configurable = some false ∧ Desc.Configurable = some true then
      (false, O)
    else if cur.Configurable = some false ∧ Desc.Enumerable.isSome ∧
            Desc.Enumerable ≠ cur.Enumerable then
      (false, O)
    else if IsGenericDescriptor Desc then
      (true, applyDescFields O P Desc)
    else if IsDataDescriptor cur ≠ IsDataDescriptor Desc then
      if cur.Configurable = some false then (false, O)
      else if IsDataDescriptor cur then
        (true, applyDescFields (convertToAccessor O P) P Desc)
      else
        (true, applyDescFields (convertToData O P) P Desc)
    else if IsDataDescriptor cur ∧ IsDataDescriptor Desc then
      if cur.Configurable = some false ∧ cur.Writable = some false then
        if Desc.Writable = some true then (false, O)
        else if Desc.Value.isSome ∧
                SameValue (Desc.Value.getD .undef) (cur.Value.getD .undef) = false then
          (false, O)
        else (true, O)
      else (true, applyDescFields O P Desc)
    else
      if cur.Configurable = some false then
        if Desc.Set.isSome ∧
           SameValue (Desc.Set.getD .undef) (cur.Set.getD .undef) = false then
          (false, O)
        else if Desc.Get.isSome ∧
                SameValue (Desc.Get.getD .undef) (cur.Get.getD .undef) = false then
          (false, O)
        else (true, O)
      else (true, applyDescFields O P Desc)

/-- An ordinary object as far as the property algebra is concerned:
its property map and its Extensible flag. -/
structure OrdObj where
  properties : PropMap
  Extensible : Bool
deriving DecidableEq, Repr

/-- OrdinaryGetOwnProperty (9.1.5.1): copies the stored entry into a fresh
descriptor, taking Value/Writable for a data property, Get/Set for an
accessor property, and Enumerable/Configurable always. -/
def OrdinaryGetOwnProperty (props : PropMap) (P : JSVal) : Option Descriptor :=
  match mapGet props P with
  | none => none
  | some x =>
      some { Value := if IsDataDescriptor x then x.Value else none
             Writable := if IsDataDescriptor x then x.Writable else none
             Get := if !(IsDataDescriptor x) && IsAccessorDescriptor x then x.Get else none
             Set := if !(IsDataDescriptor x) && IsAccessorDescriptor x then x.Set else none
             Enumerable := x.Enumerable
             Configurable := x.Configurable }

/-- OrdinaryDefineOwnProperty (9.1.6.1): reads the current descriptor and the
Extensible flag, then runs ValidateAndApplyPropertyDescriptor on the object. -/
def OrdinaryDefineOwnProperty (O : OrdObj) (P : JSVal) (Desc : Descriptor) :
    Bool × OrdObj :=
  let current := OrdinaryGetOwnProperty O.properties P
  let extensible := O.Extensible
  let r := ValidateAndApplyPropertyDescriptor (some O.properties) P extensible Desc current
  (r.1, { O with properties := r.2.getD O.properties })

/-- OrdinaryDelete (9.1.10.1): a missing property deletes vacuously; a
configurable property is removed; otherwise the deletion is refused. -/
def OrdinaryDelete (O : OrdObj) (P : JSVal) : Bool × OrdObj :=
  match OrdinaryGetOwnProperty O.properties P with
  | none => (true, O)
  | some desc =>
      if desc.Configurable = some true then
        (true, { O with properties := mapDelete O.properties P })
      else (false, O)

/-- C1: when `current` is absent, ValidateAndApplyPropertyDescriptor rejects
exactly when the object is not extensible; otherwise it accepts and stores a
fully-populated descriptor whose missing Value/Get/Set fields default to the
undefined value and whose missing Writable/Enumerable/Configurable fields
default to false.  The embedded function returns a plain `Bool` (mirroring
the source's `BooleanValue` return type): no throw completion can occur. -/
theorem vapd_absent_current (Oopt : Option PropMap) (props : PropMap)
    (P : JSVal) (Desc : Descriptor) :
    ValidateAndApplyPropertyDescriptor Oopt P false Desc none = (false, Oopt)
    ∧ (ValidateAndApplyPropertyDescriptor Oopt P true Desc none).1 = true
    ∧ (∃ d : Descriptor,
        ValidateAndApplyPropertyDescriptor (some props) P true Desc none =
          (true, some (mapSet props P d))
        ∧ d.Enumerable = some (Desc.Enumerable.getD false)
        ∧ d.Configurable = some (Desc.Configurable.getD false)
        ∧ (if IsGenericDescriptor Desc || IsDataDescriptor Desc then
             d.Value = some (Desc.Value.getD .undef)
             ∧ d.Writable = some (Desc.Writable.getD false)
             ∧ d.Get = none ∧ d.Set = none
           else
             d.Get = some (Desc.Get.getD .undef)
             ∧ d.Set = some (Desc.Set.getD .undef)
             ∧ d.Value = none ∧ d.Writable = none)) := by
  refine ⟨?_, ?_, ?_⟩
  · cases Oopt <;> simp [ValidateAndApplyPropertyDescriptor]
  · by_cases h : IsGenericDescriptor Desc || IsDataDescriptor Desc <;>
      cases Oopt <;> simp [ValidateAndApplyPropertyDescriptor, h]
  · by_cases h : IsGenericDescriptor Desc || IsDataDescriptor Desc
    · refine ⟨{ Value := some (Desc.Value.getD .undef)
                Writable := some (Desc.Writable.getD false)
                Enumerable := some (Desc.Enumerable.getD false)
                Configurable := some (Desc.Configurable.getD false) },
        by simp [ValidateAndApplyPropertyDescriptor, h], rfl, rfl, ?_⟩
      simp [h]
    · refine ⟨{ Get := some (Desc.Get.getD .undef)
                Set := some (Desc.Set.getD .undef)
                Enumerable := some (Desc.Enumerable.getD false)
                Configurable := some (Desc.Configurable.getD false) },
        by simp [ValidateAndApplyPropertyDescriptor, h], rfl, rfl, ?_⟩
      simp [h]

/-- A descriptor with every field absent is generic. -/
theorem everyFieldIsAbsent_generic (d : Descriptor)
    (h : d.everyFieldIsAbsent = true) : IsGenericDescriptor d = true := by
  simp only [Descriptor.everyFieldIsAbsent, Bool.and_eq_true, beq_iff_eq] at h
  obtain ⟨⟨⟨⟨⟨h1, h2⟩, h3⟩, h4⟩, h5⟩, h6⟩ := h
  simp [IsGenericDescriptor, IsAccessorDescriptor, IsDataDescriptor, h1, h2, h3, h4]

/-- The descriptor copy made by OrdinaryGetOwnProperty has the same
data/accessor classification as the stored entry. -/
theorem isData_getOwnCopy (x : Descriptor) :
    IsDataDescriptor
      { Value := if IsDataDescriptor x then x.Value else none
        Writable := if IsDataDescriptor x then x.Writable else none
        Get := if !(IsDataDescriptor x) && IsAccessorDescriptor x then x.Get else none
        Set := if !(IsDataDescriptor x) && IsAccessorDescriptor x then x.Set else none
        Enumerable := x.Enumerable
        Configurable := x.Configurable } = IsDataDescriptor x := by
  by_cases hdx : IsDataDescriptor x = true
  · have hdx2 : (x.Value.isSome || x.Writable.isSome) = true := hdx
    simp only [hdx, Bool.not_true, Bool.false_and, if_true, Bool.false_eq_true, if_false]
    simp [IsDataDescriptor, hdx2]
  · simp only [Bool.not_eq_true] at hdx
    simp only [hdx, Bool.false_eq_true, if_false]
    simp [IsDataDescriptor, hdx]

/-- Case analysis of ValidateAndApplyPropertyDescriptor against a
non-configurable current descriptor: the rejected requests return false with
the object untouched, the empty request returns true with the object
untouched. -/
theorem vapd_nonconfig_cases (Oo : Option PropMap) (P : JSVal) (ext : Bool)
    (Desc cur : Descriptor) (hc : cur.Configurable = some false) :
    (Desc.Configurable = some true →
        ValidateAndApplyPropertyDescriptor Oo P ext Desc (some cur) = (false, Oo))
    ∧ (Desc.Enumerable.isSome = true → Desc.Enumerable ≠ cur.Enumerable →
        ValidateAndApplyPropertyDescriptor Oo P ext Desc (some cur) = (false, Oo))
    ∧ (IsGenericDescriptor Desc = false →
        IsDataDescriptor Desc ≠ IsDataDescriptor cur →
        ValidateAndApplyPropertyDescriptor Oo P ext Desc (some cur) = (false, Oo))
    ∧ (IsDataDescriptor cur = true → cur.Writable = some false →
        (Desc.Writable = some true →
          ValidateAndApplyPropertyDescriptor Oo P ext Desc (some cur) = (false, Oo))
        ∧ (∀ v, Desc.Value = some v →
            SameValue v (cur.Value.getD .undef) = false →
            ValidateAndApplyPropertyDescriptor Oo P ext Desc (some cur) = (false, Oo)))
    ∧ (Desc.everyFieldIsAbsent = true →
        ValidateAndApplyPropertyDescriptor Oo P ext Desc (some cur) = (true, Oo)) := by
  refine ⟨?_, ?_, ?_, ?_, ?_⟩
  · intro h1
    have hne : Desc.everyFieldIsAbsent = false := by
      simp [Descriptor.everyFieldIsAbsent, h1]
    simp [ValidateAndApplyPropertyDescriptor, hne, hc, h1]
  · intro h2 h2v
    have hne : Desc.everyFieldIsAbsent = false := by
      rcases Option.isSome_iff_exists.mp h2 with ⟨b, hb⟩
      simp [Descriptor.everyFieldIsAbsent, hb]
    by_cases h1 : Desc.Configurable = some true <;>
      simp [ValidateAndApplyPropertyDescriptor, hne, hc, h1, h2, h2v]
  · intro hng hkd
    have hne : Desc.everyFieldIsAbsent = false := by
      by_contra hcon
      simp only [Bool.not_eq_false] at hcon
      simp [everyFieldIsAbsent_generic Desc hcon] at hng
    by_cases h1 : Desc.Configurable = some true
    · simp [ValidateAndApplyPropertyDescriptor, hne, hc, h1]
    · by_cases h2 : Desc.Enumerable.isSome = true ∧ Desc.Enumerable ≠ cur.Enumerable
      · simp [ValidateAndApplyPropertyDescriptor, hne, hc, h1, h2.1, h2.2]
      · simp [ValidateAndApplyPropertyDescriptor, hne, hc, h1, h2, hng, hkd.symm]
  · intro hdx hw
    constructor
    · intro hwt
      have hne : Desc.everyFieldIsAbsent = false := by
        simp [Descriptor.everyFieldIsAbsent, hwt]
      have hdd : IsDataDescriptor Desc = true := by
        simp [IsDataDescriptor, hwt]
      have hng : IsGenericDescriptor Desc = false := by
        simp [IsGenericDescriptor, hdd]
      by_cases h1 : Desc.Configurable = some true
      · simp [ValidateAndApplyPropertyDescriptor, hne, hc, h1]
      · by_cases h2 : Desc.Enumerable.isSome = true ∧ Desc.Enumerable ≠ cur.Enumerable
        · simp [ValidateAndApplyPropertyDescriptor, hne, hc, h1, h2.1, h2.2]
        · simp [ValidateAndApplyPropertyDescriptor, hne, hc, h1, h2, hng, hdx, hdd,
            hw, hwt]
    · intro v hv hsv
      have hne : Desc.everyFieldIsAbsent = false := by
        simp [Descriptor.everyFieldIsAbsent, hv]
      have hdd : IsDataDescriptor Desc = true := by
        simp [IsDataDescriptor, hv]
      have hng : IsGenericDescriptor Desc = false := by
        simp [IsGenericDescriptor, hdd]
      by_cases h1 : Desc.Configurable = some true
      · simp [ValidateAndApplyPropertyDescriptor, hne, hc, h1]
      · by_cases h2 : Desc.Enumerable.isSome = true ∧ Desc.Enumerable ≠ cur.Enumerable
        · simp [ValidateAndApplyPropertyDescriptor, hne, hc, h1, h2.1, h2.2]
        · by_cases hwt : Desc.Writable = some true
          · simp [ValidateAndApplyPropertyDescriptor, hne, hc, h1, h2, hng, hdx,
              hdd, hw, hwt]
          · simp [ValidateAndApplyPropertyDescriptor, hne, hc, h1, h2, hng, hdx,
              hdd, hw, hwt, hv, hsv]
  · intro habs
    simp [ValidateAndApplyPropertyDescriptor, habs]

/-- C2: on a property whose stored descriptor is non-configurable,
OrdinaryDefineOwnProperty (through ValidateAndApplyPropertyDescriptor)
rejects — returning false and leaving the object unchanged — any request
that sets Configurable to true, changes Enumerable, changes the kind
between data and accessor, or (when the property is also non-writable
data) supplies a Value that is not SameValue-equal to the stored one or
sets Writable to true; a request with every field absent is accepted and
leaves the object unchanged. -/
theorem odop_nonconfigurable (O : OrdObj) (P : JSVal) (x : Descriptor)
    (Desc : Descriptor)
    (hx : mapGet O.properties P = some x)
    (hc : x.Configurable = some false) :
    (Desc.Configurable = some true →
        OrdinaryDefineOwnProperty O P Desc = (false, O))
    ∧ (Desc.Enumerable.isSome = true → Desc.Enumerable ≠ x.Enumerable →
        OrdinaryDefineOwnProperty O P Desc = (false, O))
    ∧ (IsGenericDescriptor Desc = false →
        IsDataDescriptor Desc ≠ IsDataDescriptor x →
        OrdinaryDefineOwnProperty O P Desc = (false, O))
    ∧ (IsDataDescriptor x = true → x.Writable = some false →
        (Desc.Writable = some true →
            OrdinaryDefineOwnProperty O P Desc = (false, O))
        ∧ (∀ v, Desc.Value = some v →
            SameValue v (x.Value.getD .undef) = false →
            OrdinaryDefineOwnProperty O P Desc = (false, O)))
    ∧ (Desc.everyFieldIsAbsent = true →
        OrdinaryDefineOwnProperty O P Desc = (true, O)) := by
  have hgown : OrdinaryGetOwnProperty O.properties P =
      some { Value := if IsDataDescriptor x then x.Value else none
             Writable := if IsDataDescriptor x then x.Writable else none
             Get := if !(IsDataDescriptor x) && IsAccessorDescriptor x then x.Get else none
             Set := if !(IsDataDescriptor x) && IsAccessorDescriptor x then x.Set else none
             Enumerable := x.Enumerable
             Configurable := x.Configurable } := by
    simp [OrdinaryGetOwnProperty, hx]
  obtain ⟨c1, c2, c3, c4, c5⟩ :=
    vapd_nonconfig_cases (some O.properties) P O.Extensible Desc
      { Value := if IsDataDescriptor x then x.Value else none
        Writable := if IsDataDescriptor x then x.Writable else none
        Get := if !(IsDataDescriptor x) && IsAccessorDescriptor x then x.Get else none
        Set := if !(IsDataDescriptor x) && IsAccessorDescriptor x then x.Set else none
        Enumerable := x.Enumerable
        Configurable := x.Configurable } hc
  have hlift : ∀ b,
      ValidateAndApplyPropertyDescriptor (some O.properties) P O.Extensible Desc
        (some { Value := if IsDataDescriptor x then x.Value else none
                Writable := if IsDataDescriptor x then x.Writable else none
                Get := if !(IsDataDescriptor x) && IsAccessorDescriptor x then x.Get else none
                Set := if !(IsDataDescriptor x) && IsAccessorDescriptor x then x.Set else none
                Enumerable := x.Enumerable
                Configurable := x.Configurable }) = (b, some O.properties) →
      OrdinaryDefineOwnProperty O P Desc = (b, O) := by
    intro b heq
    simp only [OrdinaryDefineOwnProperty, hgown, heq]
    rfl
  refine ⟨fun h1 => hlift false (c1 h1),
          fun h2 h2v => hlift false (c2 h2 h2v),
          fun hng hkd => hlift false (c3 hng ?_),
          fun hdx hw => ?_,
          fun habs => hlift true (c5 habs)⟩
  · rw [isData_getOwnCopy]
    exact hkd
  · have hcdata : IsDataDescriptor
        { Value := if IsDataDescriptor x then x.Value else none
          Writable := if IsDataDescriptor x then x.Writable else none
          Get := if !(IsDataDescriptor x) && IsAccessorDescriptor x then x.Get else none
          Set := if !(IsDataDescriptor x) && IsAccessorDescriptor x then x.Set else none
          Enumerable := x.Enumerable
          Configurable := x.Configurable : Descriptor } = true := by
      rw [isData_getOwnCopy]
      exact hdx
    have hcw : (if IsDataDescriptor x then x.Writable else none) = some false := by
      rw [hdx]
      simpa using hw
    obtain ⟨c4a, c4b⟩ := c4 hcdata hcw
    refine ⟨fun hwt => hlift false (c4a hwt), fun v hv hsv => hlift false (c4b v hv ?_)⟩
    have hval : (if IsDataDescriptor x then x.Value else none) = x.Value := by
      rw [hdx]
      simp
    simpa [hval] using hsv

/-- Concrete check of `odop_nonconfigurable`: a frozen data property `"p" = 1`
rejects a redefinition to the value 2 and accepts the empty request. -/
theorem odop_nonconfigurable_witness :
    OrdinaryDefineOwnProperty
      ⟨[(.str [112], { Value := some (.num (.q 1)), Writable := some false,
                       Enumerable := some false, Configurable := some false })],
        true⟩
      (.str [112]) { Value := some (.num (.q 2)) } =
      (false,
        ⟨[(.str [112], { Value := some (.num (.q 1)), Writable := some false,
                         Enumerable := some false, Configurable := some false })],
          true⟩) :=
  ((odop_nonconfigurable
      ⟨[(.str [112], { Value := some (.num (.q 1)), Writable := some false,
                       Enumerable := some false, Configurable := some false })],
        true⟩
      (.str [112])
      { Value := some (.num (.q 1)), Writable := some false,
        Enumerable := some false, Configurable := some false }
      { Value := some (.num (.q 2)) }
      (by decide) (by decide)).2.2.2.1 (by decide) (by decide)).2
    (.num (.q 2)) rfl (by decide)

/-- Truncation of a finite number toward zero (the integer part used by the
ToInt32 / ToUint32 conversions). -/
def JSNum.trunc (x : ℚ) : Int :=
  x.num.tdiv x.den

/-- Modelled from the spec: ToUint32 on a Number — NaN, the infinities and the
zeroes map to 0, finite values are truncated toward zero and reduced
modulo 2^32. -/
def ToUint32 : JSNum → Nat
  | .nan => 0
  | .inf => 0
  | .ninf => 0
  | .nzero => 0
  | .q x => ((JSNum.trunc x) % (2 ^ 32 : Int)).toNat

/-- Modelled from the spec: ToInt32 on a Number — as ToUint32 but the result
is reinterpreted as a signed 32-bit value. -/
def ToInt32 : JSNum → Int
  | .nan => 0
  | .inf => 0
  | .ninf => 0
  | .nzero => 0
  | .q x =>
      let w := (JSNum.trunc x) % (2 ^ 32 : Int)
      if 2 ^ 31 ≤ w then w - 2 ^ 32 else w

/-- Reinterpretation of an integer's low 32 bits as a signed 32-bit value:
the result of the host's 32-bit operators. -/
def int32wrap (i : Int) : Int :=
  let w := i % (2 ^ 32 : Int)
  if 2 ^ 31 ≤ w then w - 2 ^ 32 else w

namespace NumberValue

/-- Number::leftShift (src/src/value.mts): shift ToInt32 of the left operand
left by ToUint32 of the right operand masked with 0x1F; the host `<<` on the
int32 operand yields its low 32 bits as a signed 32-bit integer. -/
def leftShift (x y : JSNum) : JSNum :=
  let lnum := ToInt32 x
  let rnum := ToUint32 y
  let shiftCount := rnum % 32
  .q (int32wrap (lnum * 2 ^ shiftCount))

/-- Number::signedRightShift (src/src/value.mts): sign-extending right shift
of ToInt32 of the left operand; the host `>>` on an int32 operand is floor
division by the power of two. -/
def signedRightShift (x y : JSNum) : JSNum :=
  let lnum := ToInt32 x
  let rnum := ToUint32 y
  let shiftCount := rnum % 32
  .q ((lnum / 2 ^ shiftCount : Int))

/-- Number::unsignedRightShift (src/src/value.mts): zero-filling right shift;
the host `>>>` reinterprets the int32 operand as unsigned before shifting. -/
def unsignedRightShift (x y : JSNum) : JSNum :=
  let lnum := ToInt32 x
  let rnum := ToUint32 y
  let shiftCount := rnum % 32
  .q (((lnum % (2 ^ 32 : Int)).toNat / 2 ^ shiftCount : Nat))

end NumberValue

/-- ToInt32 of an integer already in signed 32-bit range is that integer. -/
theorem toInt32_int_inrange (i : Int) (h1 : -(2 ^ 31) ≤ i) (h2 : i < 2 ^ 31) :
    ToInt32 (.q i) = i := by
  have ht : JSNum.trunc (i : ℚ) = i := by
    simp [JSNum.trunc, Rat.num_intCast, Rat.den_intCast]
  simp only [ToInt32, ht]
  rcases le_or_lt 0 i with hpos | hneg
  · have : i % (2 ^ 32 : Int) = i := Int.emod_eq_of_lt hpos (by omega)
    simp only [this]
    omega
  · have : i % (2 ^ 32 : Int) = i + 2 ^ 32 := by
      have := Int.add_mul_emod_self_left (a := i) (b := (2 ^ 32 : Int)) (c := 1)
      have h3 : (i + 2 ^ 32) % (2 ^ 32 : Int) = i % (2 ^ 32 : Int) := by
        omega
      have h4 : (i + 2 ^ 32) % (2 ^ 32 : Int) = i + 2 ^ 32 :=
        Int.emod_eq_of_lt (by omega) (by omega)
      omega
    simp only [this]
    omega

/-- ToUint32 of a natural number below 2^32 is that number. -/
theorem toUint32_nat_inrange (n : Nat) (h : n < 2 ^ 32) :
    ToUint32 (.q n) = n := by
  have ht : JSNum.trunc (n : ℚ) = n := by
    have hcast : ((n : ℚ)) = ((n : Int) : ℚ) := by push_cast; ring
    rw [JSNum.trunc, hcast, Rat.num_intCast, Rat.den_intCast]
    simp [Int.tdiv_one]
  simp only [ToUint32, ht]
  have : (n : Int) % (2 ^ 32 : Int) = n := Int.emod_eq_of_lt (by omega) (by omega)
  omega

/-- The result of ToInt32 lies in the signed 32-bit range. -/
theorem toInt32_range (x : JSNum) :
    -(2 ^ 31) ≤ ToInt32 x ∧ ToInt32 x < 2 ^ 31 := by
  cases x with
  | q a =>
    have h1 := Int.emod_nonneg (JSNum.trunc a) (by norm_num : (2 ^ 32 : Int) ≠ 0)
    have h2 := Int.emod_lt_of_pos (JSNum.trunc a) (by norm_num : (0 : Int) < 2 ^ 32)
    simp only [ToInt32]
    omega
  | nan => simp [ToInt32]
  | inf => simp [ToInt32]
  | ninf => simp [ToInt32]
  | nzero => simp [ToInt32]

/-- The result of ToUint32 lies below 2^32. -/
theorem toUint32_range (x : JSNum) : ToUint32 x < 2 ^ 32 := by
  cases x <;> simp [ToUint32]
  case q a =>
    have := Int.emod_nonneg (JSNum.trunc a) (by norm_num : (2 ^ 32 : Int) ≠ 0)
    have := Int.emod_lt_of_pos (JSNum.trunc a) (by norm_num : (0 : Int) < 2 ^ 32)
    omega

/-- The signed reinterpretation of the low 32 bits lies in the int32 range. -/
theorem int32wrap_range (i : Int) :
    -(2 ^ 31) ≤ int32wrap i ∧ int32wrap i < 2 ^ 31 := by
  have h1 := Int.emod_nonneg i (by norm_num : (2 ^ 32 : Int) ≠ 0)
  have h2 := Int.emod_lt_of_pos i (by norm_num : (0 : Int) < 2 ^ 32)
  simp only [int32wrap]
  omega

/-- C8: the three Number shift operators depend on their operands only
through ToInt32 of the left operand and ToUint32 of the right operand masked
with 0x1F; `<<` and `>>` land in the signed 32-bit range while `>>>` lands in
the unsigned 32-bit range; and in particular 1 << 33 = 2 and
(-1) >>> 0 = 4294967295. -/
theorem number_shift_spec :
    (∀ x y : JSNum,
        NumberValue.leftShift x y =
          NumberValue.leftShift (.q (ToInt32 x)) (.q ((ToUint32 y % 32 : Nat)))
        ∧ NumberValue.signedRightShift x y =
          NumberValue.signedRightShift (.q (ToInt32 x)) (.q ((ToUint32 y % 32 : Nat)))
        ∧ NumberValue.unsignedRightShift x y =
          NumberValue.unsignedRightShift (.q (ToInt32 x)) (.q ((ToUint32 y % 32 : Nat))))
    ∧ (∀ x y : JSNum, ∃ i : Int,
        -(2 ^ 31) ≤ i ∧ i < 2 ^ 31 ∧ NumberValue.leftShift x y = .q i)
    ∧ (∀ x y : JSNum, ∃ i : Int,
        -(2 ^ 31) ≤ i ∧ i < 2 ^ 31 ∧ NumberValue.signedRightShift x y = .q i)
    ∧ (∀ x y : JSNum, ∃ n : Nat,
        n < 2 ^ 32 ∧ NumberValue.unsignedRightShift x y = .q n)
    ∧ NumberValue.leftShift (.q 1) (.q 33) = .q 2
    ∧ NumberValue.unsignedRightShift (.q (-1)) (.q 0) = .q 4294967295 := by
  have hint : ∀ x : JSNum, ToInt32 (.q (ToInt32 x)) = ToInt32 x := fun x =>
    toInt32_int_inrange _ (toInt32_range x).1 (toInt32_range x).2
  have hmask : ∀ y : JSNum,
      ToUint32 (.q ((ToUint32 y % 32 : Nat))) = ToUint32 y % 32 := fun y =>
    toUint32_nat_inrange _ (by have := toUint32_range y; omega)
  refine ⟨?_, ?_, ?_, ?_, by decide, by decide⟩
  · intro x y
    refine ⟨?_, ?_, ?_⟩ <;>
      simp [NumberValue.leftShift, NumberValue.signedRightShift,
        NumberValue.unsignedRightShift, hint, hmask, Nat.mod_mod_of_dvd]
  · intro x y
    exact ⟨int32wrap (ToInt32 x * 2 ^ (ToUint32 y % 32)),
      (int32wrap_range _).1, (int32wrap_range _).2, rfl⟩
  · intro x y
    refine ⟨ToInt32 x / 2 ^ (ToUint32 y % 32), ?_, ?_, rfl⟩
    · rw [Int.le_ediv_iff_mul_le (by positivity)]
      have hp : (0 : Int) < 2 ^ (ToUint32 y % 32) := by positivity
      have h1 : (-(2 ^ 31) : Int) * 2 ^ (ToUint32 y % 32) ≤ -(2 ^ 31) * 1 := by
        apply mul_le_mul_of_nonpos_left (by omega) (by norm_num)
      calc (-(2 ^ 31) : Int) * 2 ^ (ToUint32 y % 32) ≤ -(2 ^ 31) * 1 := h1
        _ ≤ ToInt32 x := by have := (toInt32_range x).1; omega
    · rw [Int.ediv_lt_iff_lt_mul (by positivity)]
      calc ToInt32 x < 2 ^ 31 := (toInt32_range x).2
        _ ≤ 2 ^ 31 * 2 ^ (ToUint32 y % 32) := by
          have hp : (0 : Int) < 2 ^ (ToUint32 y % 32) := by positivity
          exact le_mul_of_one_le_right (by norm_num) (by omega)
  · intro x y
    refine ⟨(ToInt32 x % (2 ^ 32 : Int)).toNat / 2 ^ (ToUint32 y % 32), ?_, rfl⟩
    have h1 := Int.emod_lt_of_pos (ToInt32 x) (by norm_num : (0 : Int) < 2 ^ 32)
    have h2 := Int.emod_nonneg (ToInt32 x) (by norm_num : (2 ^ 32 : Int) ≠ 0)
    have h3 : (ToInt32 x % (2 ^ 32 : Int)).toNat < 2 ^ 32 := by omega
    exact lt_of_le_of_lt (Nat.div_le_self _ _) h3

/-- Decimal printing worker, structurally recursive on a fuel bound so that
concrete instances evaluate inside the kernel. -/
def natToUnitsAux : Nat → Nat → List Nat
  | 0, _ => []
  | fuel + 1, n =>
      if n < 10 then [48 + n]
      else natToUnitsAux fuel (n / 10) ++ [48 + n % 10]

/-- Decimal representation of a nonnegative integer as UTF-16 code units
(the canonical `ToString` output for such a number). -/
def natToUnits (n : Nat) : List Nat :=
  natToUnitsAux (n + 1) n

/-- Parse a string of decimal digit code units; `none` when the string is
empty or holds a non-digit. -/
def decimalNat? (s : List Nat) : Option Nat :=
  if s = [] then none
  else if s.all (fun c => 48 ≤ c && c ≤ 57) then
    some (s.foldl (fun acc c => acc * 10 + (c - 48)) 0)
  else none

/-- Modelled from the spec: CanonicalNumericIndexString restricted to the
nonnegative-integer strings — the string must be the canonical decimal
`ToString` of its numeric value.  Strings that denote non-integers, negative
values or use any non-canonical spelling yield `none`, exactly the strings on
which the source's isArrayIndex answers false. -/
def canonicalNumericNat? (s : List Nat) : Option Nat :=
  match decimalNat? s with
  | none => none
  | some n => if s = natToUnits n then some n else none

/-- isArrayIndex (src/src/abstract-ops/data-types-and-values.mts): a string
key whose canonical numeric value is an integer that is +0 or lies strictly
between 0 and 2^32 − 1. -/
def isArrayIndex (P : JSVal) : Bool :=
  match P with
  | .str s =>
    match canonicalNumericNat? s with
    | none => false
    | some n => if n = 0 then true else decide (0 < n ∧ n < 2 ^ 32 - 1)
  | _ => false

/-- The numeric value the source reads back from an array-index key
(`Number(key)` / `parseInt(key, 10)`; the two agree on canonical digit
strings). -/
def keyNumber (P : JSVal) : Nat :=
  match P with
  | .str s => (decimalNat? s).getD 0
  | _ => 0

/-- String keys. -/
def isStringKey : JSVal → Bool
  | .str _ => true
  | _ => false

/-- Symbol keys. -/
def isSymbolKey : JSVal → Bool
  | .sym _ => true
  | _ => false

/-- OrdinaryOwnPropertyKeys (9.1.11.1,
src/src/abstract-ops/arraybuffer-objects.mts): the array-index keys sorted by
numeric value, then the remaining string keys in insertion order, then the
symbol keys in insertion order.  The sort of the first group models the
source's `keys.sort((a, b) => parseInt(a) - parseInt(b))`. -/
def OrdinaryOwnPropertyKeys (props : PropMap) : List JSVal :=
  let keys := ((props.map Prod.fst).filter (fun P => isArrayIndex P)).insertionSort
    (fun a b => keyNumber a ≤ keyNumber b)
  let stringKeys := (props.map Prod.fst).filter
    (fun P => isStringKey P && !(isArrayIndex P))
  let symbolKeys := (props.map Prod.fst).filter (fun P => isSymbolKey P)
  keys ++ stringKeys ++ symbolKeys

/-- The printing worker never returns the empty string while fuelled. -/
theorem natToUnitsAux_ne (fuel n : Nat) (h : n < fuel) :
    natToUnitsAux fuel n ≠ [] := by
  match fuel with
  | f + 1 =>
    rw [natToUnitsAux]
    split <;> simp

/-- The printing worker emits decimal digit code units only. -/
theorem natToUnitsAux_digits (fuel n : Nat) (h : n < fuel) :
    (natToUnitsAux fuel n).all (fun c => 48 ≤ c && c ≤ 57) = true := by
  induction fuel generalizing n with
  | zero => omega
  | succ f ih =>
    rw [natToUnitsAux]
    split
    · simp
      omega
    · rename_i hge
      have hlt : n / 10 < f := by
        have := Nat.div_lt_self (show 0 < n by omega) (show 1 < 10 by omega)
        omega
      have := ih (n / 10) hlt
      simp [List.all_append, this]
      omega

/-- The printing worker's output parses back to its input. -/
theorem natToUnitsAux_val (fuel n : Nat) (h : n < fuel) :
    (natToUnitsAux fuel n).foldl (fun acc c => acc * 10 + (c - 48)) 0 = n := by
  induction fuel generalizing n with
  | zero => omega
  | succ f ih =>
    rw [natToUnitsAux]
    split
    · simp
    · rename_i hge
      have hlt : n / 10 < f := by
        have := Nat.div_lt_self (show 0 < n by omega) (show 1 < 10 by omega)
        omega
      rw [List.foldl_append, ih (n / 10) hlt]
      simp
      omega

/-- Parsing inverts printing on nonnegative integers. -/
theorem decimalNat_natToUnits (n : Nat) : decimalNat? (natToUnits n) = some n := by
  rw [decimalNat?]
  simp [natToUnits, natToUnitsAux_ne (n + 1) n (by omega),
    natToUnitsAux_digits (n + 1) n (by omega), natToUnitsAux_val (n + 1) n (by omega)]

/-- Printing a nonnegative integer is injective. -/
theorem natToUnits_injective : Function.Injective natToUnits := by
  intro a b h
  have ha := decimalNat_natToUnits a
  have hb := decimalNat_natToUnits b
  rw [h] at ha
  exact Option.some_injective _ (ha.symm.trans hb)

/-- isArrayIndex answers true exactly on the canonical decimal strings of
the naturals strictly below 2^32 − 1. -/
theorem isArrayIndex_iff (P : JSVal) :
    isArrayIndex P = true ↔ ∃ n, n < 2 ^ 32 - 1 ∧ P = .str (natToUnits n) := by
  constructor
  · intro h
    match P with
    | .str s =>
      rw [isArrayIndex] at h
      rcases hc : canonicalNumericNat? s with _ | n
      · rw [hc] at h
        simp at h
      · rw [hc] at h
        simp only at h
        have hbound : n < 2 ^ 32 - 1 := by
          by_cases hz : n = 0
          · omega
          · rw [if_neg hz] at h
            simp at h
            omega
        have hs : s = natToUnits n := by
          rw [canonicalNumericNat?] at hc
          rcases hd : decimalNat? s with _ | m
          · rw [hd] at hc
            simp at hc
          · rw [hd] at hc
            have hc2 : (if s = natToUnits m then some m else none) = some n := hc
            by_cases hcanon : s = natToUnits m
            · rw [if_pos hcanon] at hc2
              cases hc2
              exact hcanon
            · rw [if_neg hcanon] at hc2
              simp at hc2
        exact ⟨n, hbound, by rw [hs]⟩
    | .sym i => simp [isArrayIndex] at h
    | .obj i => simp [isArrayIndex] at h
    | .num m => simp [isArrayIndex] at h
    | .big i => simp [isArrayIndex] at h
    | .bool b => simp [isArrayIndex] at h
    | .undef => simp [isArrayIndex] at h
    | .null => simp [isArrayIndex] at h
  · rintro ⟨n, hn, rfl⟩
    rw [isArrayIndex, canonicalNumericNat?, decimalNat_natToUnits]
    simp only [if_pos rfl]
    by_cases hz : n = 0
    · simp [hz]
    · simp [hz]
      omega

/-- keyNumber reads back the printed value. -/
theorem keyNumber_natToUnits (n : Nat) : keyNumber (.str (natToUnits n)) = n := by
  rw [keyNumber, decimalNat_natToUnits]
  rfl

/-- C4: OrdinaryOwnPropertyKeys lists a permutation of the array-index keys
in strictly ascending numeric order, then the remaining string keys in
insertion order, then the symbol keys in insertion order; and isArrayIndex,
which classifies the first group, holds exactly on canonical decimal strings
`n` with n in [0, 2^32 − 1). -/
theorem ordinaryOwnPropertyKeys_spec (props : PropMap)
    (hnodup : (props.map Prod.fst).Nodup) :
    ∃ A : List JSVal,
      OrdinaryOwnPropertyKeys props =
        A ++ (props.map Prod.fst).filter (fun P => isStringKey P && !(isArrayIndex P))
          ++ (props.map Prod.fst).filter (fun P => isSymbolKey P)
      ∧ A.Perm ((props.map Prod.fst).filter (fun P => isArrayIndex P))
      ∧ A.Pairwise (fun a b => keyNumber a < keyNumber b)
      ∧ ∀ P, isArrayIndex P = true ↔
          ∃ n, n < 2 ^ 32 - 1 ∧ P = .str (natToUnits n) := by
  letI : IsTotal JSVal (fun a b => keyNumber a ≤ keyNumber b) :=
    ⟨fun a b => Nat.le_total _ _⟩
  letI : IsTrans JSVal (fun a b => keyNumber a ≤ keyNumber b) :=
    ⟨fun _ _ _ => Nat.le_trans⟩
  refine ⟨((props.map Prod.fst).filter (fun P => isArrayIndex P)).insertionSort
    (fun a b => keyNumber a ≤ keyNumber b), rfl, List.perm_insertionSort _ _, ?_,
    isArrayIndex_iff⟩
  have hsorted := List.sorted_insertionSort
    (fun (a b : JSVal) => keyNumber a ≤ keyNumber b)
    ((props.map Prod.fst).filter (fun P => isArrayIndex P))
  have hnd : (((props.map Prod.fst).filter (fun P => isArrayIndex P)).insertionSort
      (fun a b => keyNumber a ≤ keyNumber b)).Nodup :=
    (List.perm_insertionSort _ _).nodup_iff.mpr (hnodup.filter _)
  have hmem : ∀ P ∈ ((props.map Prod.fst).filter (fun P => isArrayIndex P)).insertionSort
      (fun a b => keyNumber a ≤ keyNumber b), isArrayIndex P = true := by
    intro P hP
    have := (List.perm_insertionSort (fun (a b : JSVal) => keyNumber a ≤ keyNumber b)
      ((props.map Prod.fst).filter (fun P => isArrayIndex P))).mem_iff.mp hP
    exact List.of_mem_filter this
  have hcomb := List.Pairwise.and hsorted hnd
  refine hcomb.imp_of_mem ?_
  intro a b ha hb hab
  obtain ⟨hle, hne⟩ := hab
  rcases (isArrayIndex_iff a).mp (hmem a ha) with ⟨na, _, rfl⟩
  rcases (isArrayIndex_iff b).mp (hmem b hb) with ⟨nb, _, rfl⟩
  simp only [keyNumber_natToUnits] at hle ⊢
  rcases Nat.lt_or_ge na nb with h | h
  · exact h
  · exfalso
    apply hne
    have : na = nb := by omega
    rw [this]

/-- A small concrete property map: keys "2", "b", a symbol, and the
non-canonical numeric string "00". -/
def samplePropMap : PropMap :=
  [(.str [50], {}), (.str [98], {}), (.sym 7, {}), (.str [48, 48], {})]

/-- Concrete check of `ordinaryOwnPropertyKeys_spec` on `samplePropMap`. -/
theorem ordinaryOwnPropertyKeys_spec_witness :
    ∃ A : List JSVal,
      OrdinaryOwnPropertyKeys samplePropMap =
        A ++ (samplePropMap.map Prod.fst).filter
            (fun P => isStringKey P && !(isArrayIndex P))
          ++ (samplePropMap.map Prod.fst).filter (fun P => isSymbolKey P)
      ∧ A.Perm ((samplePropMap.map Prod.fst).filter (fun P => isArrayIndex P))
      ∧ A.Pairwise (fun a b => keyNumber a < keyNumber b)
      ∧ ∀ P, isArrayIndex P = true ↔
          ∃ n, n < 2 ^ 32 - 1 ∧ P = .str (natToUnits n) :=
  ordinaryOwnPropertyKeys_spec samplePropMap (by decide)

/-- Modelled from the spec: the Abstract Relational Comparison of two strings
as sequences of UTF-16 code units — true exactly when the first is a proper
prefix of the second or its first differing code unit is smaller. -/
def stringLt : List Nat → List Nat → Bool
  | [], [] => false
  | [], _ :: _ => true
  | _ :: _, [] => false
  | a :: as, b :: bs =>
      if a < b then true else if b < a then false else stringLt as bs

/-- stringLt is irreflexive. -/
theorem stringLt_irrefl (x : List Nat) : stringLt x x = false := by
  induction x with
  | nil => rfl
  | cons a as ih => simp [stringLt, ih]

/-- stringLt is asymmetric. -/
theorem stringLt_asymm (x : List Nat) : ∀ y, stringLt x y = true → stringLt y x = false := by
  induction x with
  | nil =>
    intro y h
    cases y <;> simp [stringLt] at h ⊢
  | cons a as ih =>
    intro y h
    cases y with
    | nil => simp [stringLt] at h
    | cons b bs =>
      simp only [stringLt] at h ⊢
      split_ifs at h ⊢ <;> first | rfl | omega | exact ih bs h | simp_all

/-- Strings unrelated by stringLt in either direction are equal. -/
theorem stringLt_conn (x : List Nat) : ∀ y,
    stringLt x y = false → stringLt y x = false → x = y := by
  induction x with
  | nil =>
    intro y h1 _
    cases y with
    | nil => rfl
    | cons b bs => simp [stringLt] at h1
  | cons a as ih =>
    intro y h1 h2
    cases y with
    | nil => simp [stringLt] at h2
    | cons b bs =>
      simp only [stringLt] at h1 h2
      by_cases hab : a < b
      · rw [if_pos hab] at h1
        cases h1
      · rw [if_neg hab] at h1
        by_cases hba : b < a
        · rw [if_pos hba] at h2
          cases h2
        · rw [if_neg hba] at h1
          have hs2 : stringLt bs as = false := by
            rw [if_neg hba, if_neg hab] at h2
            exact h2
          have hab2 : a = b := by omega
          have htail := ih bs h1 hs2
          rw [hab2, htail]

/-- stringLt is transitive. -/
theorem stringLt_trans (x : List Nat) : ∀ y z,
    stringLt x y = true → stringLt y z = true → stringLt x z = true := by
  induction x with
  | nil =>
    intro y z hxy hyz
    cases z with
    | nil => cases y <;> simp [stringLt] at hxy hyz
    | cons c cs => simp [stringLt]
  | cons a as ih =>
    intro y z hxy hyz
    cases y with
    | nil => simp [stringLt] at hxy
    | cons b bs =>
      cases z with
      | nil => simp [stringLt] at hyz
      | cons c cs =>
        simp only [stringLt] at hxy hyz ⊢
        split_ifs at hxy hyz ⊢ <;>
          first | rfl | omega | exact ih bs cs hxy hyz | simp_all

/-- SortCompare (src/src/abstract-ops/private-names.mts) at the call sites of
ModuleNamespaceCreate: both arguments are export-name strings (never
undefined) and comparefn is undefined, so the result is the Abstract
Relational Comparison of the two strings. -/
def SortCompare (x y : List Nat) : Int :=
  if stringLt x y then -1 else if stringLt y x then 1 else 0

/-- The comparator order used by the namespace sort: result at most zero. -/
theorem sortCompare_le_iff (x y : List Nat) :
    SortCompare x y ≤ 0 ↔ (stringLt x y = true ∨ x = y) := by
  rw [SortCompare]
  split_ifs with h1 h2
  · simp [h1]
  · rw [Bool.not_eq_true] at h1
    constructor
    · intro h
      omega
    · rintro (h | rfl)
      · rw [h1] at h
        cases h
      · rw [stringLt_irrefl] at h2
        cases h2
  · rw [Bool.not_eq_true] at h1 h2
    simp [stringLt_conn x y h1 h2]

/-- A module namespace exotic object
(src/src/abstract-ops/module-namespace-exotic-objects.mts): a module
reference, the sorted export-name list, a null prototype slot, and the
ordinary property map that backs its symbol-keyed properties. -/
structure ModuleNamespaceExoticObject where
  Module : Nat
  Exports : List (List Nat)
  Prototype : Option Nat
  properties : PropMap
deriving DecidableEq, Repr

/-- ModuleNamespaceSet: always refuses. -/
def ModuleNamespaceSet (_M : ModuleNamespaceExoticObject) : Bool :=
  false

/-- ModuleNamespaceIsExtensible: always false. -/
def ModuleNamespaceIsExtensible (_M : ModuleNamespaceExoticObject) : Bool :=
  false

/-- ModuleNamespacePreventExtensions: always succeeds. -/
def ModuleNamespacePreventExtensions (_M : ModuleNamespaceExoticObject) : Bool :=
  true

/-- ModuleNamespaceDelete: symbols go through OrdinaryDelete on the property
map; a string key is deletable exactly when it is not an exported name. -/
def ModuleNamespaceDelete (M : ModuleNamespaceExoticObject) (P : JSVal) :
    Bool × ModuleNamespaceExoticObject :=
  match P with
  | .sym i =>
      let r := OrdinaryDelete ⟨M.properties, false⟩ (.sym i)
      (r.1, { M with properties := r.2.properties })
  | P =>
      if (match P with | .str s => M.Exports.contains s | _ => false) then (false, M)
      else (true, M)

/-- ModuleNamespaceOwnPropertyKeys: the exported names (already sorted) then
the ordinary own keys of the backing map. -/
def ModuleNamespaceOwnPropertyKeys (M : ModuleNamespaceExoticObject) : List JSVal :=
  (M.Exports.map .str) ++ OrdinaryOwnPropertyKeys M.properties

/-- The string "Module" as code units. -/
def moduleStr : List Nat := [77, 111, 100, 117, 108, 101]

/-- The well-known @@toStringTag symbol. -/
def toStringTagSym : JSVal := .sym 0

/-- ModuleNamespaceCreate: a fresh namespace object with null prototype,
exports sorted with the default SortCompare (the host sort is stable;
insertion sort models it), and the @@toStringTag own property. -/
def ModuleNamespaceCreate (module : Nat) (exports : List (List Nat)) :
    ModuleNamespaceExoticObject :=
  let sortedExports := exports.insertionSort (fun x y => SortCompare x y ≤ 0)
  { Module := module
    Prototype := none
    Exports := sortedExports
    properties := [(toStringTagSym,
      { Writable := some false, Enumerable := some false,
        Configurable := some false, Value := some (.str moduleStr) })] }

/-- C5: module namespace objects refuse every Set, are non-extensible, have a
null prototype, allow Delete exactly on non-exported string keys, keep their
Exports sorted by the default SortCompare, and enumerate the exported string
keys first (in sorted order) followed by the symbol keys of the backing map. -/
theorem moduleNamespace_spec :
    (∀ M : ModuleNamespaceExoticObject, ModuleNamespaceSet M = false)
    ∧ (∀ M : ModuleNamespaceExoticObject, ModuleNamespaceIsExtensible M = false)
    ∧ (∀ (M : ModuleNamespaceExoticObject) (s : List Nat),
        (s ∈ M.Exports → ModuleNamespaceDelete M (.str s) = (false, M))
        ∧ (s ∉ M.Exports → ModuleNamespaceDelete M (.str s) = (true, M)))
    ∧ (∀ (module : Nat) (exports : List (List Nat)),
        (ModuleNamespaceCreate module exports).Prototype = none
        ∧ (ModuleNamespaceCreate module exports).Exports.Perm exports
        ∧ (ModuleNamespaceCreate module exports).Exports.Pairwise
            (fun x y => SortCompare x y ≤ 0))
    ∧ (∀ M : ModuleNamespaceExoticObject,
        (∀ e ∈ M.properties, isSymbolKey e.1 = true) →
        ModuleNamespaceOwnPropertyKeys M =
          (M.Exports.map .str) ++ (M.properties.map Prod.fst)) := by
  letI : IsTotal (List Nat) (fun x y => SortCompare x y ≤ 0) := ⟨by
    intro a b
    rw [sortCompare_le_iff, sortCompare_le_iff]
    by_cases h1 : stringLt a b = true
    · exact Or.inl (Or.inl h1)
    · by_cases h2 : stringLt b a = true
      · exact Or.inr (Or.inl h2)
      · rw [Bool.not_eq_true] at h1 h2
        exact Or.inl (Or.inr (stringLt_conn a b h1 h2))⟩
  letI : IsTrans (List Nat) (fun x y => SortCompare x y ≤ 0) := ⟨by
    intro a b c hab hbc
    rw [sortCompare_le_iff] at hab hbc ⊢
    rcases hab with hab | rfl
    · rcases hbc with hbc | rfl
      · exact Or.inl (stringLt_trans a b c hab hbc)
      · exact Or.inl hab
    · exact hbc⟩
  refine ⟨fun M => rfl, fun M => rfl, ?_, ?_, ?_⟩
  · intro M s
    constructor
    · intro hmem
      simp [ModuleNamespaceDelete, List.elem_iff, hmem]
    · intro hmem
      simp [ModuleNamespaceDelete, List.elem_iff, hmem]
  · intro module exports
    refine ⟨rfl, List.perm_insertionSort _ _, ?_⟩
    exact List.sorted_insertionSort (fun x y => SortCompare x y ≤ 0) exports
  · intro M hall
    rw [ModuleNamespaceOwnPropertyKeys, OrdinaryOwnPropertyKeys]
    have hidx : (M.properties.map Prod.fst).filter (fun P => isArrayIndex P) = [] := by
      rw [List.filter_eq_nil_iff]
      intro P hP
      rcases List.mem_map.mp hP with ⟨e, he, rfl⟩
      have := hall e he
      match h : e.1 with
      | .sym i => simp [isArrayIndex]
      | .str t => rw [h] at this; simp [isSymbolKey] at this
      | .undef | .null | .bool _ | .num _ | .big _ | .obj _ =>
        rw [h] at this
        simp [isSymbolKey] at this
    have hstr : (M.properties.map Prod.fst).filter
        (fun P => isStringKey P && !(isArrayIndex P)) = [] := by
      rw [List.filter_eq_nil_iff]
      intro P hP
      rcases List.mem_map.mp hP with ⟨e, he, rfl⟩
      have := hall e he
      match h : e.1 with
      | .sym i => simp [isStringKey]
      | .str t => rw [h] at this; simp [isSymbolKey] at this
      | .undef | .null | .bool _ | .num _ | .big _ | .obj _ =>
        rw [h] at this
        simp [isSymbolKey] at this
    have hsym : (M.properties.map Prod.fst).filter (fun P => isSymbolKey P) =
        M.properties.map Prod.fst := by
      rw [List.filter_eq_self]
      intro P hP
      rcases List.mem_map.mp hP with ⟨e, he, rfl⟩
      exact hall e he
    rw [hidx, hstr, hsym]
    simp

/-- Concrete check of `moduleNamespace_spec`: deleting the exported name "a"
from a namespace exporting "b" and "a" is refused. -/
theorem moduleNamespace_spec_witness :
    ModuleNamespaceDelete (ModuleNamespaceCreate 0 [[98], [97]]) (.str [97]) =
      (false, ModuleNamespaceCreate 0 [[98], [97]]) :=
  (moduleNamespace_spec.2.2.1 (ModuleNamespaceCreate 0 [[98], [97]]) [97]).1
    (by decide)

/-- The typed-array element types of Table 61. -/
inductive TypedArrayElementType where
  | int8
  | uint8
  | uint8c
  | int16
  | uint16
  | int32
  | uint32
  | bigint64
  | biguint64
  | float32
  | float64
deriving DecidableEq, Repr

/-- Modelled from the spec: the Element Size column of Table 61
(typedArrayInfoByType is not under src/). -/
def ElementSize : TypedArrayElementType → Nat
  | .int8 => 1
  | .uint8 => 1
  | .uint8c => 1
  | .int16 => 2
  | .uint16 => 2
  | .int32 => 4
  | .uint32 => 4
  | .bigint64 => 8
  | .biguint64 => 8
  | .float32 => 4
  | .float64 => 8

/-- IsBigIntElementType (both copies of the source define it identically). -/
def IsBigIntElementType (t : TypedArrayElementType) : Bool :=
  t == .biguint64 || t == .bigint64

/-- Numeric values as seen by the buffer codec.  A non-NaN double exactly
representable in binary32 or binary64 is carried as its bit pattern; the
integral doubles produced by the integer element types are carried exactly;
every NaN double collapses to `nan` (the codec canonicalises the NaN bit
pattern on writing, so payloads are unobservable).  Distinct constructors may
denote the same ECMAScript number; the codec theorems never identify values
across constructors. -/
inductive CodecNum where
  | nan
  | f32 (bits : Nat)
  | f64 (bits : Nat)
  | int (v : Int)
  | big (v : Int)
deriving DecidableEq, Repr

/-- Number-valued codec operands (as opposed to BigInt-valued ones). -/
def CodecNum.isNumberKind : CodecNum → Bool
  | .big _ => false
  | _ => true

/-- BigInt-valued codec operands. -/
def CodecNum.isBigIntKind : CodecNum → Bool
  | .big _ => true
  | _ => false

/-- Little-endian assembly of a byte list into a machine word (first byte is
least significant), as the host scratch DataView does. -/
def bytesToWordLE : List Nat → Nat
  | [] => 0
  | b :: bs => b + 256 * bytesToWordLE bs

/-- Little-endian serialisation of the low `k` bytes of a word. -/
def wordToBytesLE : Nat → Nat → List Nat
  | 0, _ => []
  | k + 1, w => (w % 256) :: wordToBytesLE k (w / 256)

/-- A binary32 pattern with an all-ones exponent and nonzero fraction. -/
def isNaN32 (w : Nat) : Bool :=
  (w / 2 ^ 23) % 256 == 255 && w % 2 ^ 23 != 0

/-- A binary64 pattern with an all-ones exponent and nonzero fraction. -/
def isNaN64 (w : Nat) : Bool :=
  (w / 2 ^ 52) % 2048 == 2047 && w % 2 ^ 52 != 0

/-- Two's-complement reading of an unsigned `bits`-wide word. -/
def toSigned (w : Nat) (bits : Nat) : Int :=
  if w < 2 ^ (bits - 1) then (w : Int) else (w : Int) - 2 ^ bits

/-- Reduction of a mathematical integer to the signed `bits`-wide range. -/
def signedWrap (v : Int) (bits : Nat) : Int :=
  let w := v % (2 ^ bits : Int)
  if 2 ^ (bits - 1) ≤ w then w - 2 ^ bits else w

/-- Modelled from the spec: the Conversion Operation column of Table 61
(ToInt8, ToUint8, ToUint8Clamp, …, ToBigUint64 are not under src/).  Exact on
NaN and on integral Numbers (respectively BigInts); the truncation of other
doubles happens in the host and is outside the model (`none`), as is a value
of the wrong numeric kind, which the source rejects with an assertion. -/
def ConversionOperation : TypedArrayElementType → CodecNum → Option Int
  | .int8, .nan => some 0
  | .int8, .int v => some (signedWrap v 8)
  | .uint8, .nan => some 0
  | .uint8, .int v => some (v % (2 ^ 8 : Int))
  | .uint8c, .nan => some 0
  | .uint8c, .int v => some (if v ≤ 0 then 0 else if 255 ≤ v then 255 else v)
  | .int16, .nan => some 0
  | .int16, .int v => some (signedWrap v 16)
  | .uint16, .nan => some 0
  | .uint16, .int v => some (v % (2 ^ 16 : Int))
  | .int32, .nan => some 0
  | .int32, .int v => some (signedWrap v 32)
  | .uint32, .nan => some 0
  | .uint32, .int v => some (v % (2 ^ 32 : Int))
  | .bigint64, .big v => some (signedWrap v 64)
  | .biguint64, .big v => some (v % (2 ^ 64 : Int))
  | _, _ => none

/-- Write a byte list into a block starting at an index (`block[i] = byte`;
out-of-range host stores are discarded, as List.set does). -/
def setBytes (block : List Nat) (i : Nat) : List Nat → List Nat
  | [] => block
  | b :: bs => setBytes (block.set i b) (i + 1) bs

namespace AB

/-- The ArrayBufferData slot of src/src/abstract-ops/arraybuffer-objects.mts:
null (detached), an owned DataBlock, or a SharedDataBlock (whose operations
the source leaves unimplemented behind failing assertions). -/
inductive BufferData where
  | nullData
  | block (bytes : List Nat)
  | sharedBlock
deriving DecidableEq, Repr

/-- An ArrayBuffer as the codec sees it. -/
structure ArrayBufferObject where
  ArrayBufferData : BufferData
  ArrayBufferByteLength : Nat
deriving DecidableEq, Repr

/-- IsDetachedBuffer (src/src/abstract-ops/arraybuffer-objects.mts). -/
def IsDetachedBuffer (arrayBuffer : ArrayBufferObject) : Bool :=
  match arrayBuffer.ArrayBufferData with
  | .nullData => true
  | _ => false

/-- IsSharedArrayBuffer (src/src/abstract-ops/arraybuffer-objects.mts):
null and DataBlock answer false, SharedDataBlock answers true. -/
def IsSharedArrayBuffer (arrayBuffer : ArrayBufferObject) : Bool :=
  match arrayBuffer.ArrayBufferData with
  | .nullData => false
  | .block _ => false
  | .sharedBlock => true

/-- RawBytesToNumeric (src/src/abstract-ops/arraybuffer-objects.mts): decode
`elementSize` bytes through the scratch DataView at the requested endianness;
`none` when the byte list has the wrong length (the source asserts).  The
host's IEEE decode is modelled bit-exactly: a float pattern with NaN shape
reads as NaN, any other pattern is kept as the value's bit pattern. -/
def RawBytesToNumeric (t : TypedArrayElementType) (rawBytes : List Nat)
    (isLittleEndian : Bool) : Option CodecNum :=
  let elementSize := ElementSize t
  if rawBytes.length ≠ elementSize then none
  else
    let w := if isLittleEndian then bytesToWordLE rawBytes
             else bytesToWordLE rawBytes.reverse
    some (match t with
      | .int8 => .int (toSigned w 8)
      | .uint8 => .int w
      | .uint8c => .int w
      | .int16 => .int (toSigned w 16)
      | .uint16 => .int w
      | .int32 => .int (toSigned w 32)
      | .uint32 => .int w
      | .bigint64 => .big (toSigned w 64)
      | .biguint64 => .big w
      | .float32 => if isNaN32 w then .nan else .f32 w
      | .float64 => if isNaN64 w then .nan else .f64 w)

/-- The canonical NaN byte patterns of the source file. -/
def float32NaNLE : List Nat := [0, 0, 192, 127]

/-- Big-endian canonical binary32 NaN. -/
def float32NaNBE : List Nat := [127, 192, 0, 0]

/-- Little-endian canonical binary64 NaN. -/
def float64NaNLE : List Nat := [0, 0, 0, 0, 0, 0, 248, 127]

/-- Big-endian canonical binary64 NaN. -/
def float64NaNBE : List Nat := [127, 248, 0, 0, 0, 0, 0, 0]

/-- NumericToRawBytes (src/src/abstract-ops/arraybuffer-objects.mts): NaN
floats encode to the fixed canonical patterns; other floats are stored
bit-exactly by the host `setFloat32`/`setFloat64` (a Number that is not
exactly representable at the target width would be rounded by the host —
outside the model, `none`); integer types convert with the Table 61
conversion and store the two's complement of the result. -/
def NumericToRawBytes (t : TypedArrayElementType) (value : CodecNum)
    (isLittleEndian : Bool) : Option (List Nat) :=
  match t with
  | .float32 =>
    match value with
    | .nan => some (if isLittleEndian then float32NaNLE else float32NaNBE)
    | .f32 w =>
        some (if isLittleEndian then wordToBytesLE 4 w
              else (wordToBytesLE 4 w).reverse)
    | _ => none
  | .float64 =>
    match value with
    | .nan => some (if isLittleEndian then float64NaNLE else float64NaNBE)
    | .f64 w =>
        some (if isLittleEndian then wordToBytesLE 8 w
              else (wordToBytesLE 8 w).reverse)
    | _ => none
  | _ =>
    match ConversionOperation t value with
    | none => none
    | some intValue =>
        let n := ElementSize t
        let w := (intValue % ((2 : Int) ^ (8 * n))).toNat
        some (if isLittleEndian then wordToBytesLE n w
              else (wordToBytesLE n w).reverse)

/-- GetValueFromBuffer (src/src/abstract-ops/arraybuffer-objects.mts):
asserts the buffer is not detached, refuses the unimplemented shared path,
reads `elementSize` bytes at `byteIndex` and decodes them; an absent
endianness argument falls back to the agent record's endianness. -/
def GetValueFromBuffer (arrayBuffer : ArrayBufferObject) (byteIndex : Nat)
    (t : TypedArrayElementType) (_isTypedArray : Bool)
    (isLittleEndian : Option Bool) (agentLE : Bool) : Option CodecNum :=
  if IsDetachedBuffer arrayBuffer = true then none
  else if IsSharedArrayBuffer arrayBuffer = true then none
  else
    match arrayBuffer.ArrayBufferData with
    | .block block =>
        let rawValue := (block.drop byteIndex).take (ElementSize t)
        RawBytesToNumeric t rawValue (isLittleEndian.getD agentLE)
    | _ => none

/-- SetValueInBuffer (src/src/abstract-ops/arraybuffer-objects.mts): asserts
the buffer is not detached and the value has the numeric kind matching the
element type, encodes the value and stores the bytes at `byteIndex`. -/
def SetValueInBuffer (arrayBuffer : ArrayBufferObject) (byteIndex : Nat)
    (t : TypedArrayElementType) (value : CodecNum) (_isTypedArray : Bool)
    (isLittleEndian : Option Bool) (agentLE : Bool) : Option ArrayBufferObject :=
  if IsDetachedBuffer arrayBuffer = true then none
  else if (if IsBigIntElementType t then !value.isBigIntKind
           else !value.isNumberKind) then none
  else
    match NumericToRawBytes t value (isLittleEndian.getD agentLE) with
    | none => none
    | some rawBytes =>
        if IsSharedArrayBuffer arrayBuffer = true then none
        else
          match arrayBuffer.ArrayBufferData with
          | .block block =>
              some { arrayBuffer with
                     ArrayBufferData := .block (setBytes block byteIndex rawBytes) }
          | _ => none

end AB

namespace AB7

/-- An ArrayBuffer as the second codec copy (src/unnamed/part_007) sees it:
its ArrayBufferData is either null (detached) or an owned DataBlock — this
copy has no SharedDataBlock representation at all. -/
structure ArrayBufferObject where
  ArrayBufferData : Option (List Nat)
  ArrayBufferByteLength : Nat
deriving DecidableEq, Repr

/-- IsDetachedBuffer (src/unnamed/part_007). -/
def IsDetachedBuffer (arrayBuffer : ArrayBufferObject) : Bool :=
  match arrayBuffer.ArrayBufferData with
  | none => true
  | some _ => false

/-- IsSharedArrayBuffer (src/unnamed/part_007): constantly false. -/
def IsSharedArrayBuffer (_arrayBuffer : ArrayBufferObject) : Bool :=
  false

/-- RawBytesToNumeric (src/unnamed/part_007); the body coincides with the
copy in src/src/abstract-ops/arraybuffer-objects.mts. -/
def RawBytesToNumeric (t : TypedArrayElementType) (rawBytes : List Nat)
    (isLittleEndian : Bool) : Option CodecNum :=
  let elementSize := ElementSize t
  if rawBytes.length ≠ elementSize then none
  else
    let w := if isLittleEndian then bytesToWordLE rawBytes
             else bytesToWordLE rawBytes.reverse
    some (match t with
      | .int8 => .int (toSigned w 8)
      | .uint8 => .int w
      | .uint8c => .int w
      | .int16 => .int (toSigned w 16)
      | .uint16 => .int w
      | .int32 => .int (toSigned w 32)
      | .uint32 => .int w
      | .bigint64 => .big (toSigned w 64)
      | .biguint64 => .big w
      | .float32 => if isNaN32 w then .nan else .f32 w
      | .float64 => if isNaN64 w then .nan else .f64 w)

/-- Little-endian canonical binary32 NaN (src/unnamed/part_007). -/
def float32NaNLE : List Nat := [0, 0, 192, 127]

/-- Big-endian canonical binary32 NaN. -/
def float32NaNBE : List Nat := [127, 192, 0, 0]

/-- Little-endian canonical binary64 NaN. -/
def float64NaNLE : List Nat := [0, 0, 0, 0, 0, 0, 248, 127]

/-- Big-endian canonical binary64 NaN. -/
def float64NaNBE : List Nat := [127, 248, 0, 0, 0, 0, 0, 0]

/-- NumericToRawBytes (src/unnamed/part_007); the body coincides with the
copy in src/src/abstract-ops/arraybuffer-objects.mts (that copy uses CastType
where this one uses NON-SPEC asserts — no behavioural difference). -/
def NumericToRawBytes (t : TypedArrayElementType) (value : CodecNum)
    (isLittleEndian : Bool) : Option (List Nat) :=
  match t with
  | .float32 =>
    match value with
    | .nan => some (if isLittleEndian then float32NaNLE else float32NaNBE)
    | .f32 w =>
        some (if isLittleEndian then wordToBytesLE 4 w
              else (wordToBytesLE 4 w).reverse)
    | _ => none
  | .float64 =>
    match value with
    | .nan => some (if isLittleEndian then float64NaNLE else float64NaNBE)
    | .f64 w =>
        some (if isLittleEndian then wordToBytesLE 8 w
              else (wordToBytesLE 8 w).reverse)
    | _ => none
  | _ =>
    match ConversionOperation t value with
    | none => none
    | some intValue =>
        let n := ElementSize t
        let w := (intValue % ((2 : Int) ^ (8 * n))).toNat
        some (if isLittleEndian then wordToBytesLE n w
              else (wordToBytesLE n w).reverse)

/-- GetValueFromBuffer (src/unnamed/part_007). -/
def GetValueFromBuffer (arrayBuffer : ArrayBufferObject) (byteIndex : Nat)
    (t : TypedArrayElementType) (_isTypedArray : Bool)
    (isLittleEndian : Option Bool) (agentLE : Bool) : Option CodecNum :=
  if IsDetachedBuffer arrayBuffer = true then none
  else if IsSharedArrayBuffer arrayBuffer = true then none
  else
    match arrayBuffer.ArrayBufferData with
    | some block =>
        let rawValue := (block.drop byteIndex).take (ElementSize t)
        RawBytesToNumeric t rawValue (isLittleEndian.getD agentLE)
    | none => none

/-- SetValueInBuffer (src/unnamed/part_007). -/
def SetValueInBuffer (arrayBuffer : ArrayBufferObject) (byteIndex : Nat)
    (t : TypedArrayElementType) (value : CodecNum) (_isTypedArray : Bool)
    (isLittleEndian : Option Bool) (agentLE : Bool) : Option ArrayBufferObject :=
  if IsDetachedBuffer arrayBuffer = true then none
  else if (if IsBigIntElementType t then !value.isBigIntKind
           else !value.isNumberKind) then none
  else
    match NumericToRawBytes t value (isLittleEndian.getD agentLE) with
    | none => none
    | some rawBytes =>
        if IsSharedArrayBuffer arrayBuffer = true then none
        else
          match arrayBuffer.ArrayBufferData with
          | some block =>
              some { arrayBuffer with
                     ArrayBufferData := some (setBytes block byteIndex rawBytes) }
          | none => none

end AB7

/-- The abstraction from the part_007 buffer representation to the main one:
null maps to null, a DataBlock to the same DataBlock. -/
def toMainBuffer (b : AB7.ArrayBufferObject) : AB.ArrayBufferObject :=
  { ArrayBufferData :=
      match b.ArrayBufferData with
      | none => .nullData
      | some bs => .block bs
    ArrayBufferByteLength := b.ArrayBufferByteLength }

/-- C9: the two codec copies agree.  For every non-shared, non-detached
buffer (the part_007 representation has no shared buffers; the hypothesis
rules out detachment), byte index, element type, value and endianness
arguments, GetValueFromBuffer and SetValueInBuffer of
src/src/abstract-ops/arraybuffer-objects.mts return the same result and the
same final buffer contents as the copies in src/unnamed/part_007, along the
representation map `toMainBuffer`. -/
theorem codec_copies_equiv (b7 : AB7.ArrayBufferObject) (bytes : List Nat)
    (hnd : b7.ArrayBufferData = some bytes)
    (byteIndex : Nat) (t : TypedArrayElementType) (ity : Bool)
    (le? : Option Bool) (agentLE : Bool) (value : CodecNum) :
    AB.GetValueFromBuffer (toMainBuffer b7) byteIndex t ity le? agentLE =
      AB7.GetValueFromBuffer b7 byteIndex t ity le? agentLE
    ∧ AB.SetValueInBuffer (toMainBuffer b7) byteIndex t value ity le? agentLE =
      (AB7.SetValueInBuffer b7 byteIndex t value ity le? agentLE).map toMainBuffer := by
  obtain ⟨data, len⟩ := b7
  simp only at hnd
  subst hnd
  constructor
  · rfl
  · simp only [AB.SetValueInBuffer, AB7.SetValueInBuffer, toMainBuffer,
      AB.IsDetachedBuffer, AB7.IsDetachedBuffer, AB.IsSharedArrayBuffer,
      AB7.IsSharedArrayBuffer]
    have hntrb : AB.NumericToRawBytes = AB7.NumericToRawBytes := rfl
    rw [hntrb]
    cases AB7.NumericToRawBytes t value (le?.getD agentLE) <;>
      by_cases hkind : (if IsBigIntElementType t = true then value.isBigIntKind = false
        else value.isNumberKind = false) <;>
      simp [hkind, toMainBuffer]

/-- Concrete check of `codec_copies_equiv` on a four-byte buffer, an Int32
read and an Int32 store of 5. -/
theorem codec_copies_equiv_witness :
    AB.GetValueFromBuffer (toMainBuffer ⟨some [1, 2, 3, 4], 4⟩) 0 .int32 false
        none true =
      AB7.GetValueFromBuffer ⟨some [1, 2, 3, 4], 4⟩ 0 .int32 false none true
    ∧ AB.SetValueInBuffer (toMainBuffer ⟨some [1, 2, 3, 4], 4⟩) 0 .int32
        (.int 5) false none true =
      (AB7.SetValueInBuffer ⟨some [1, 2, 3, 4], 4⟩ 0 .int32 (.int 5) false
        none true).map toMainBuffer :=
  codec_copies_equiv ⟨some [1, 2, 3, 4], 4⟩ [1, 2, 3, 4] rfl 0 .int32 false
    none true (.int 5)

/-- Assembled words are bounded by the byte length. -/
theorem bytesToWordLE_lt (raw : List Nat) (h : ∀ b ∈ raw, b < 256) :
    bytesToWordLE raw < 2 ^ (8 * raw.length) := by
  induction raw with
  | nil => simp [bytesToWordLE]
  | cons b bs ih =>
    have hb : b < 256 := h b (List.mem_cons_self b bs)
    have hbs := ih (fun x hx => h x (List.mem_cons_of_mem b hx))
    rw [bytesToWordLE]
    have hpow : 2 ^ (8 * (b :: bs).length) = 2 ^ (8 * bs.length) * 256 := by
      rw [List.length_cons, Nat.mul_succ, Nat.pow_add]
    rw [hpow]
    omega

/-- Little-endian serialisation inverts little-endian assembly. -/
theorem wordToBytes_round (raw : List Nat) (h : ∀ b ∈ raw, b < 256) :
    wordToBytesLE raw.length (bytesToWordLE raw) = raw := by
  induction raw with
  | nil => rfl
  | cons b bs ih =>
    have hb : b < 256 := h b (List.mem_cons_self b bs)
    have hbs := ih (fun x hx => h x (List.mem_cons_of_mem b hx))
    rw [List.length_cons, bytesToWordLE, wordToBytesLE]
    have h1 : (b + 256 * bytesToWordLE bs) % 256 = b := by omega
    have h2 : (b + 256 * bytesToWordLE bs) / 256 = bytesToWordLE bs := by omega
    rw [h1, h2, hbs]

/-- Serialisation at either endianness inverts assembly at that endianness. -/
theorem serialize_round (raw : List Nat) (e : Bool) (h : ∀ b ∈ raw, b < 256) :
    (if e then
        wordToBytesLE raw.length
          (if e then bytesToWordLE raw else bytesToWordLE raw.reverse)
      else
        (wordToBytesLE raw.length
          (if e then bytesToWordLE raw else bytesToWordLE raw.reverse)).reverse) =
      raw := by
  cases e
  · simp only [Bool.false_eq_true, if_false]
    have hlen : raw.length = raw.reverse.length := (List.length_reverse raw).symm
    rw [hlen, wordToBytes_round raw.reverse
      (fun b hb => h b (List.mem_reverse.mp hb)), List.reverse_reverse]
  · simp only [if_true]
    exact wordToBytes_round raw h

/-- The assembled word at either endianness is bounded. -/
theorem assemble_lt (raw : List Nat) (e : Bool) (h : ∀ b ∈ raw, b < 256) :
    (if e then bytesToWordLE raw else bytesToWordLE raw.reverse) <
      2 ^ (8 * raw.length) := by
  cases e
  · simp only [Bool.false_eq_true, if_false]
    have hlen : raw.length = raw.reverse.length := (List.length_reverse raw).symm
    rw [hlen]
    exact bytesToWordLE_lt raw.reverse (fun b hb => h b (List.mem_reverse.mp hb))
  · simp only [if_true]
    exact bytesToWordLE_lt raw h

/-- C7: buffer codec round trip.  Decoding a byte sequence of the element's
size with RawBytesToNumeric and re-encoding the value with NumericToRawBytes
at the same type and endianness reproduces the bytes whenever the decoded
value is not NaN; a NaN decode re-encodes to the canonical NaN pattern of the
respective float type and endianness. -/
theorem codec_roundTrip (t : TypedArrayElementType) (bytes : List Nat)
    (e : Bool) (hlen : bytes.length = ElementSize t)
    (hbytes : ∀ b ∈ bytes, b < 256) :
    ∃ v : CodecNum,
      AB.RawBytesToNumeric t bytes e = some v
      ∧ (v ≠ .nan → AB.NumericToRawBytes t v e = some bytes)
      ∧ (v = .nan →
          (t = .float32 ∧ AB.NumericToRawBytes t v e =
              some (if e then AB.float32NaNLE else AB.float32NaNBE))
          ∨ (t = .float64 ∧ AB.NumericToRawBytes t v e =
              some (if e then AB.float64NaNLE else AB.float64NaNBE))) := by
  have hwlt := assemble_lt bytes e hbytes
  have hser := serialize_round bytes e hbytes
  rw [hlen] at hwlt hser
  cases t with
  | int8 =>
    refine ⟨.int (toSigned (if e then bytesToWordLE bytes else bytesToWordLE bytes.reverse) 8), by rw [AB.RawBytesToNumeric]; simp [hlen], ?_,
      by intro h; cases h⟩
    intro _
    simp only [ElementSize] at hwlt hser
    norm_num at hwlt
    have hmod : ((signedWrap (toSigned (if e then bytesToWordLE bytes else bytesToWordLE bytes.reverse) 8) 8) % ((2 : Int) ^ (8 * 1))).toNat = (if e then bytesToWordLE bytes else bytesToWordLE bytes.reverse) := by
      simp only [signedWrap, toSigned]
      norm_num
      split_ifs at hwlt ⊢ <;> omega
    calc AB.NumericToRawBytes .int8 (.int (toSigned (if e then bytesToWordLE bytes else bytesToWordLE bytes.reverse) 8)) e
        = some (if e then wordToBytesLE 1 (((signedWrap (toSigned (if e then bytesToWordLE bytes else bytesToWordLE bytes.reverse) 8) 8) % ((2 : Int) ^ (8 * 1))).toNat)
                else (wordToBytesLE 1 (((signedWrap (toSigned (if e then bytesToWordLE bytes else bytesToWordLE bytes.reverse) 8) 8) % ((2 : Int) ^ (8 * 1))).toNat)).reverse) := rfl
      _ = some bytes := by rw [hmod]; exact congrArg some hser
  | uint8 =>
    refine ⟨.int (((if e then bytesToWordLE bytes else bytesToWordLE bytes.reverse) : Nat) : Int), by rw [AB.RawBytesToNumeric]; simp [hlen]; try (split <;> rfl), ?_,
      by intro h; cases h⟩
    intro _
    simp only [ElementSize] at hwlt hser
    norm_num at hwlt
    have hmod : ((((((if e then bytesToWordLE bytes else bytesToWordLE bytes.reverse) : Nat) : Int) % ((2 : Int) ^ 8))) % ((2 : Int) ^ (8 * 1))).toNat = (if e then bytesToWordLE bytes else bytesToWordLE bytes.reverse) := by
      norm_num
      split_ifs at hwlt ⊢ <;> omega
    calc AB.NumericToRawBytes .uint8 (.int (((if e then bytesToWordLE bytes else bytesToWordLE bytes.reverse) : Nat) : Int)) e
        = some (if e then wordToBytesLE 1 (((((((if e then bytesToWordLE bytes else bytesToWordLE bytes.reverse) : Nat) : Int) % ((2 : Int) ^ 8))) % ((2 : Int) ^ (8 * 1))).toNat)
                else (wordToBytesLE 1 (((((((if e then bytesToWordLE bytes else bytesToWordLE bytes.reverse) : Nat) : Int) % ((2 : Int) ^ 8))) % ((2 : Int) ^ (8 * 1))).toNat)).reverse) := rfl
      _ = some bytes := by rw [hmod]; exact congrArg some hser
  | uint8c =>
    refine ⟨.int (((if e then bytesToWordLE bytes else bytesToWordLE bytes.reverse) : Nat) : Int), by rw [AB.RawBytesToNumeric]; simp [hlen]; try (split <;> rfl), ?_,
      by intro h; cases h⟩
    intro _
    simp only [ElementSize] at hwlt hser
    norm_num at hwlt
    have hmod : (((if (((if e then bytesToWordLE bytes else bytesToWordLE bytes.reverse) : Nat) : Int) ≤ 0 then 0 else if 255 ≤ (((if e then bytesToWordLE bytes else bytesToWordLE bytes.reverse) : Nat) : Int) then 255 else (((if e then bytesToWordLE bytes else bytesToWordLE bytes.reverse) : Nat) : Int))) % ((2 : Int) ^ (8 * 1))).toNat = (if e then bytesToWordLE bytes else bytesToWordLE bytes.reverse) := by
      norm_num
      split_ifs at hwlt ⊢ <;> omega
    calc AB.NumericToRawBytes .uint8c (.int (((if e then bytesToWordLE bytes else bytesToWordLE bytes.reverse) : Nat) : Int)) e
        = some (if e then wordToBytesLE 1 ((((if (((if e then bytesToWordLE bytes else bytesToWordLE bytes.reverse) : Nat) : Int) ≤ 0 then 0 else if 255 ≤ (((if e then bytesToWordLE bytes else bytesToWordLE bytes.reverse) : Nat) : Int) then 255 else (((if e then bytesToWordLE bytes else bytesToWordLE bytes.reverse) : Nat) : Int))) % ((2 : Int) ^ (8 * 1))).toNat)
                else (wordToBytesLE 1 ((((if (((if e then bytesToWordLE bytes else bytesToWordLE bytes.reverse) : Nat) : Int) ≤ 0 then 0 else if 255 ≤ (((if e then bytesToWordLE bytes else bytesToWordLE bytes.reverse) : Nat) : Int) then 255 else (((if e then bytesToWordLE bytes else bytesToWordLE bytes.reverse) : Nat) : Int))) % ((2 : Int) ^ (8 * 1))).toNat)).reverse) := rfl
      _ = some bytes := by rw [hmod]; exact congrArg some hser
  | int16 =>
    refine ⟨.int (toSigned (if e then bytesToWordLE bytes else bytesToWordLE bytes.reverse) 16), by rw [AB.RawBytesToNumeric]; simp [hlen], ?_,
      by intro h; cases h⟩
    intro _
    simp only [ElementSize] at hwlt hser
    norm_num at hwlt
    have hmod : ((signedWrap (toSigned (if e then bytesToWordLE bytes else bytesToWordLE bytes.reverse) 16) 16) % ((2 : Int) ^ (8 * 2))).toNat = (if e then bytesToWordLE bytes else bytesToWordLE bytes.reverse) := by
      simp only [signedWrap, toSigned]
      norm_num
      split_ifs at hwlt ⊢ <;> omega
    calc AB.NumericToRawBytes .int16 (.int (toSigned (if e then bytesToWordLE bytes else bytesToWordLE bytes.reverse) 16)) e
        = some (if e then wordToBytesLE 2 (((signedWrap (toSigned (if e then bytesToWordLE bytes else bytesToWordLE bytes.reverse) 16) 16) % ((2 : Int) ^ (8 * 2))).toNat)
                else (wordToBytesLE 2 (((signedWrap (toSigned (if e then bytesToWordLE bytes else bytesToWordLE bytes.reverse) 16) 16) % ((2 : Int) ^ (8 * 2))).toNat)).reverse) := rfl
      _ = some bytes := by rw [hmod]; exact congrArg some hser
  | uint16 =>
    refine ⟨.int (((if e then bytesToWordLE bytes else bytesToWordLE bytes.reverse) : Nat) : Int), by rw [AB.RawBytesToNumeric]; simp [hlen]; try (split <;> rfl), ?_,
      by intro h; cases h⟩
    intro _
    simp only [ElementSize] at hwlt hser
    norm_num at hwlt
    have hmod : ((((((if e then bytesToWordLE bytes else bytesToWordLE bytes.reverse) : Nat) : Int) % ((2 : Int) ^ 16))) % ((2 : Int) ^ (8 * 2))).toNat = (if e then bytesToWordLE bytes else bytesToWordLE bytes.reverse) := by
      norm_num
      split_ifs at hwlt ⊢ <;> omega
    calc AB.NumericToRawBytes .uint16 (.int (((if e then bytesToWordLE bytes else bytesToWordLE bytes.reverse) : Nat) : Int)) e
        = some (if e then wordToBytesLE 2 (((((((if e then bytesToWordLE bytes else bytesToWordLE bytes.reverse) : Nat) : Int) % ((2 : Int) ^ 16))) % ((2 : Int) ^ (8 * 2))).toNat)
                else (wordToBytesLE 2 (((((((if e then bytesToWordLE bytes else bytesToWordLE bytes.reverse) : Nat) : Int) % ((2 : Int) ^ 16))) % ((2 : Int) ^ (8 * 2))).toNat)).reverse) := rfl
      _ = some bytes := by rw [hmod]; exact congrArg some hser
  | int32 =>
    refine ⟨.int (toSigned (if e then bytesToWordLE bytes else bytesToWordLE bytes.reverse) 32), by rw [AB.RawBytesToNumeric]; simp [hlen], ?_,
      by intro h; cases h⟩
    intro _
    simp only [ElementSize] at hwlt hser
    norm_num at hwlt
    have hmod : ((signedWrap (toSigned (if e then bytesToWordLE bytes else bytesToWordLE bytes.reverse) 32) 32) % ((2 : Int) ^ (8 * 4))).toNat = (if e then bytesToWordLE bytes else bytesToWordLE bytes.reverse) := by
      simp only [signedWrap, toSigned]
      norm_num
      split_ifs at hwlt ⊢ <;> omega
    calc AB.NumericToRawBytes .int32 (.int (toSigned (if e then bytesToWordLE bytes else bytesToWordLE bytes.reverse) 32)) e
        = some (if e then wordToBytesLE 4 (((signedWrap (toSigned (if e then bytesToWordLE bytes else bytesToWordLE bytes.reverse) 32) 32) % ((2 : Int) ^ (8 * 4))).toNat)
                else (wordToBytesLE 4 (((signedWrap (toSigned (if e then bytesToWordLE bytes else bytesToWordLE bytes.reverse) 32) 32) % ((2 : Int) ^ (8 * 4))).toNat)).reverse) := rfl
      _ = some bytes := by rw [hmod]; exact congrArg some hser
  | uint32 =>
    refine ⟨.int (((if e then bytesToWordLE bytes else bytesToWordLE bytes.reverse) : Nat) : Int), by rw [AB.RawBytesToNumeric]; simp [hlen]; try (split <;> rfl), ?_,
      by intro h; cases h⟩
    intro _
    simp only [ElementSize] at hwlt hser
    norm_num at hwlt
    have hmod : ((((((if e then bytesToWordLE bytes else bytesToWordLE bytes.reverse) : Nat) : Int) % ((2 : Int) ^ 32))) % ((2 : Int) ^ (8 * 4))).toNat = (if e then bytesToWordLE bytes else bytesToWordLE bytes.reverse) := by
      norm_num
      split_ifs at hwlt ⊢ <;> omega
    calc AB.NumericToRawBytes .uint32 (.int (((if e then bytesToWordLE bytes else bytesToWordLE bytes.reverse) : Nat) : Int)) e
        = some (if e then wordToBytesLE 4 (((((((if e then bytesToWordLE bytes else bytesToWordLE bytes.reverse) : Nat) : Int) % ((2 : Int) ^ 32))) % ((2 : Int) ^ (8 * 4))).toNat)
                else (wordToBytesLE 4 (((((((if e then bytesToWordLE bytes else bytesToWordLE bytes.reverse) : Nat) : Int) % ((2 : Int) ^ 32))) % ((2 : Int) ^ (8 * 4))).toNat)).reverse) := rfl
      _ = some bytes := by rw [hmod]; exact congrArg some hser
  | bigint64 =>
    refine ⟨.big (toSigned (if e then bytesToWordLE bytes else bytesToWordLE bytes.reverse) 64), by rw [AB.RawBytesToNumeric]; simp [hlen], ?_,
      by intro h; cases h⟩
    intro _
    simp only [ElementSize] at hwlt hser
    norm_num at hwlt
    have hmod : ((signedWrap (toSigned (if e then bytesToWordLE bytes else bytesToWordLE bytes.reverse) 64) 64) % ((2 : Int) ^ (8 * 8))).toNat = (if e then bytesToWordLE bytes else bytesToWordLE bytes.reverse) := by
      simp only [signedWrap, toSigned]
      norm_num
      split_ifs at hwlt ⊢ <;> omega
    calc AB.NumericToRawBytes .bigint64 (.big (toSigned (if e then bytesToWordLE bytes else bytesToWordLE bytes.reverse) 64)) e
        = some (if e then wordToBytesLE 8 (((signedWrap (toSigned (if e then bytesToWordLE bytes else bytesToWordLE bytes.reverse) 64) 64) % ((2 : Int) ^ (8 * 8))).toNat)
                else (wordToBytesLE 8 (((signedWrap (toSigned (if e then bytesToWordLE bytes else bytesToWordLE bytes.reverse) 64) 64) % ((2 : Int) ^ (8 * 8))).toNat)).reverse) := rfl
      _ = some bytes := by rw [hmod]; exact congrArg some hser
  | biguint64 =>
    refine ⟨.big (((if e then bytesToWordLE bytes else bytesToWordLE bytes.reverse) : Nat) : Int), by rw [AB.RawBytesToNumeric]; simp [hlen]; try (split <;> rfl), ?_,
      by intro h; cases h⟩
    intro _
    simp only [ElementSize] at hwlt hser
    norm_num at hwlt
    have hmod : ((((((if e then bytesToWordLE bytes else bytesToWordLE bytes.reverse) : Nat) : Int) % ((2 : Int) ^ 64))) % ((2 : Int) ^ (8 * 8))).toNat = (if e then bytesToWordLE bytes else bytesToWordLE bytes.reverse) := by
      norm_num
      split_ifs at hwlt ⊢ <;> omega
    calc AB.NumericToRawBytes .biguint64 (.big (((if e then bytesToWordLE bytes else bytesToWordLE bytes.reverse) : Nat) : Int)) e
        = some (if e then wordToBytesLE 8 (((((((if e then bytesToWordLE bytes else bytesToWordLE bytes.reverse) : Nat) : Int) % ((2 : Int) ^ 64))) % ((2 : Int) ^ (8 * 8))).toNat)
                else (wordToBytesLE 8 (((((((if e then bytesToWordLE bytes else bytesToWordLE bytes.reverse) : Nat) : Int) % ((2 : Int) ^ 64))) % ((2 : Int) ^ (8 * 8))).toNat)).reverse) := rfl
      _ = some bytes := by rw [hmod]; exact congrArg some hser
  | float32 =>
    by_cases hnanw : isNaN32 (if e then bytesToWordLE bytes else bytesToWordLE bytes.reverse) = true
    · refine ⟨.nan, by rw [AB.RawBytesToNumeric]; simp [hlen, hnanw],
        by intro h; exact absurd rfl h, ?_⟩
      intro _
      exact Or.inl ⟨rfl, rfl⟩
    · refine ⟨.f32 (if e then bytesToWordLE bytes else bytesToWordLE bytes.reverse), by rw [AB.RawBytesToNumeric]; simp [hlen, hnanw], ?_,
        by intro h; cases h⟩
      intro _
      simp only [ElementSize] at hser
      calc AB.NumericToRawBytes .float32 (.f32 (if e then bytesToWordLE bytes else bytesToWordLE bytes.reverse)) e
          = some (if e then wordToBytesLE 4 (if e then bytesToWordLE bytes else bytesToWordLE bytes.reverse)
                  else (wordToBytesLE 4 (if e then bytesToWordLE bytes else bytesToWordLE bytes.reverse)).reverse) := rfl
        _ = some bytes := congrArg some hser
  | float64 =>
    by_cases hnanw : isNaN64 (if e then bytesToWordLE bytes else bytesToWordLE bytes.reverse) = true
    · refine ⟨.nan, by rw [AB.RawBytesToNumeric]; simp [hlen, hnanw],
        by intro h; exact absurd rfl h, ?_⟩
      intro _
      exact Or.inr ⟨rfl, rfl⟩
    · refine ⟨.f64 (if e then bytesToWordLE bytes else bytesToWordLE bytes.reverse), by rw [AB.RawBytesToNumeric]; simp [hlen, hnanw], ?_,
        by intro h; cases h⟩
      intro _
      simp only [ElementSize] at hser
      calc AB.NumericToRawBytes .float64 (.f64 (if e then bytesToWordLE bytes else bytesToWordLE bytes.reverse)) e
          = some (if e then wordToBytesLE 8 (if e then bytesToWordLE bytes else bytesToWordLE bytes.reverse)
                  else (wordToBytesLE 8 (if e then bytesToWordLE bytes else bytesToWordLE bytes.reverse)).reverse) := rfl
        _ = some bytes := congrArg some hser

/-- Concrete check of `codec_roundTrip`: a canonical little-endian binary32
NaN pattern decodes to NaN, and an Int8 byte round-trips. -/
theorem codec_roundTrip_witness :
    (∃ v : CodecNum,
      AB.RawBytesToNumeric .float32 [0, 0, 192, 127] true = some v
      ∧ (v ≠ .nan → AB.NumericToRawBytes .float32 v true = some [0, 0, 192, 127])
      ∧ (v = .nan →
          (TypedArrayElementType.float32 = .float32
            ∧ AB.NumericToRawBytes .float32 v true =
              some (if true then AB.float32NaNLE else AB.float32NaNBE))
          ∨ (TypedArrayElementType.float32 = .float64
            ∧ AB.NumericToRawBytes .float32 v true =
              some (if true then AB.float64NaNLE else AB.float64NaNBE)))) :=
  codec_roundTrip .float32 [0, 0, 192, 127] true (by decide) (by decide)

/-- The thrown-error kinds the DataView operations produce. -/
inductive JsErr where
  | typeError
  | rangeError
deriving DecidableEq, Repr

deriving instance DecidableEq for Except

/-- Integer-or-infinity results of ToIntegerOrInfinity. -/
inductive IntOrInf where
  | int (i : Int)
  | pinf
  | ninf
deriving DecidableEq, Repr

/-- Modelled from the spec: ToIntegerOrInfinity on a Number — NaN and the
zeroes give 0, infinities stay infinite, finite values truncate toward
zero. -/
def ToIntegerOrInfinity : JSNum → IntOrInf
  | .nan => .int 0
  | .nzero => .int 0
  | .inf => .pinf
  | .ninf => .ninf
  | .q x => .int (JSNum.trunc x)

/-- Modelled from the spec: ToIndex on a Number argument (ToIndex is not
under src/) — RangeError unless the truncated value lies in [0, 2^53 − 1]. -/
def ToIndex (v : JSNum) : Except JsErr Nat :=
  match ToIntegerOrInfinity v with
  | .pinf => .error .rangeError
  | .ninf => .error .rangeError
  | .int i =>
      if i < 0 ∨ 2 ^ 53 - 1 < i then .error .rangeError else .ok i.toNat

/-- Modelled from the spec: ToBigInt restricted to numeric operands — a
BigInt converts to itself, a Number throws a TypeError. -/
def ToBigIntC : CodecNum → Except JsErr CodecNum
  | .big v => .ok (.big v)
  | _ => .error .typeError

/-- Modelled from the spec: ToNumber restricted to numeric operands — a
Number converts to itself, a BigInt throws a TypeError. -/
def ToNumberC : CodecNum → Except JsErr CodecNum
  | .big _ => .error .typeError
  | v => .ok v

/-- A DataView object (src/unnamed/part_006): the viewed buffer, a byte
length and a byte offset. -/
structure DataViewObject where
  ViewedArrayBuffer : AB.ArrayBufferObject
  ByteLength : Nat
  ByteOffset : Nat
deriving DecidableEq, Repr

/-- GetViewValue (src/unnamed/part_006): coerce the request index with
ToIndex, throw TypeError on a detached buffer, throw RangeError when
getIndex + elementSize exceeds the view size, otherwise read through
GetValueFromBuffer at getIndex + ByteOffset.  The isLittleEndian argument is
taken after the source's ToBoolean coercion; `none` marks a state the source
reaches only through a failing internal assertion. -/
def GetViewValue (view : DataViewObject) (requestIndex : JSNum)
    (isLittleEndian : Bool) (t : TypedArrayElementType) (agentLE : Bool) :
    Option (Except JsErr CodecNum) :=
  match ToIndex requestIndex with
  | .error err => some (.error err)
  | .ok getIndex =>
    let buffer := view.ViewedArrayBuffer
    if AB.IsDetachedBuffer buffer = true then some (.error .typeError)
    else
      let viewOffset := view.ByteOffset
      let viewSize := view.ByteLength
      let elementSize := ElementSize t
      if viewSize < getIndex + elementSize then some (.error .rangeError)
      else
        let bufferIndex := getIndex + viewOffset
        (AB.GetValueFromBuffer buffer bufferIndex t false (some isLittleEndian)
          agentLE).map .ok

/-- SetViewValue (src/unnamed/part_006): coerce the request index with
ToIndex and the value with ToBigInt/ToNumber, throw TypeError on a detached
buffer, throw RangeError when getIndex + elementSize exceeds the view size,
otherwise store through SetValueInBuffer at getIndex + ByteOffset, returning
the updated buffer. -/
def SetViewValue (view : DataViewObject) (requestIndex : JSNum)
    (isLittleEndian : Bool) (t : TypedArrayElementType) (value : CodecNum)
    (agentLE : Bool) : Option (Except JsErr AB.ArrayBufferObject) :=
  match ToIndex requestIndex with
  | .error err => some (.error err)
  | .ok getIndex =>
    match (if IsBigIntElementType t then ToBigIntC value else ToNumberC value) with
    | .error err => some (.error err)
    | .ok numberValue =>
      let buffer := view.ViewedArrayBuffer
      if AB.IsDetachedBuffer buffer = true then some (.error .typeError)
      else
        let viewOffset := view.ByteOffset
        let viewSize := view.ByteLength
        let elementSize := ElementSize t
        if viewSize < getIndex + elementSize then some (.error .rangeError)
        else
          let bufferIndex := getIndex + viewOffset
          (AB.SetValueInBuffer buffer bufferIndex t numberValue false
            (some isLittleEndian) agentLE).map .ok

/-- C6 as stated is false on the code: on a DataView over a detached buffer
with a request that is also out of bounds, GetViewValue returns a TypeError
(the detachment check runs first), not the RangeError the claim requires for
every out-of-bounds request. -/
theorem getViewValue_detached_oob_counterexample :
    ToIndex (.q 0) = .ok 0
    ∧ (0 : Nat) < 0 + ElementSize .int8
    ∧ GetViewValue ⟨⟨.nullData, 0⟩, 0, 0⟩ (.q 0) true .int8 true =
        some (.error .typeError)
    ∧ JsErr.typeError ≠ JsErr.rangeError := by
  decide

/-- C6 (amended): GetViewValue and SetViewValue coerce the request index
with ToIndex (propagating its RangeError); then a detached buffer gives a
TypeError; then an out-of-bounds request (getIndex + elementSize above the
view's ByteLength) gives a RangeError; otherwise they delegate to
GetValueFromBuffer / SetValueInBuffer at buffer index getIndex + ByteOffset
and return normally. -/
theorem viewValue_checks (view : DataViewObject) (requestIndex : JSNum)
    (le : Bool) (t : TypedArrayElementType) (value : CodecNum)
    (agentLE : Bool) :
    (∀ err, ToIndex requestIndex = .error err →
        GetViewValue view requestIndex le t agentLE = some (.error err)
        ∧ SetViewValue view requestIndex le t value agentLE = some (.error err))
    ∧ (∀ g, ToIndex requestIndex = .ok g →
        AB.IsDetachedBuffer view.ViewedArrayBuffer = true →
        GetViewValue view requestIndex le t agentLE = some (.error .typeError)
        ∧ ((if IsBigIntElementType t then ToBigIntC value
            else ToNumberC value) = .ok value →
          SetViewValue view requestIndex le t value agentLE =
            some (.error .typeError)))
    ∧ (∀ g, ToIndex requestIndex = .ok g →
        AB.IsDetachedBuffer view.ViewedArrayBuffer = false →
        view.ByteLength < g + ElementSize t →
        GetViewValue view requestIndex le t agentLE = some (.error .rangeError)
        ∧ ((if IsBigIntElementType t then ToBigIntC value
            else ToNumberC value) = .ok value →
          SetViewValue view requestIndex le t value agentLE =
            some (.error .rangeError)))
    ∧ (∀ g, ToIndex requestIndex = .ok g →
        AB.IsDetachedBuffer view.ViewedArrayBuffer = false →
        g + ElementSize t ≤ view.ByteLength →
        (GetViewValue view requestIndex le t agentLE =
          (AB.GetValueFromBuffer view.ViewedArrayBuffer (g + view.ByteOffset) t
            false (some le) agentLE).map .ok)
        ∧ ((if IsBigIntElementType t then ToBigIntC value
            else ToNumberC value) = .ok value →
          SetViewValue view requestIndex le t value agentLE =
            (AB.SetValueInBuffer view.ViewedArrayBuffer (g + view.ByteOffset) t
              value false (some le) agentLE).map .ok)
        ∧ (∀ block, view.ViewedArrayBuffer.ArrayBufferData = .block block →
            view.ByteOffset + view.ByteLength ≤ block.length →
            ∃ v, GetViewValue view requestIndex le t agentLE =
              some (.ok v))) := by
  refine ⟨?_, ?_, ?_, ?_⟩
  · intro err herr
    rw [GetViewValue, SetViewValue, herr]
    exact ⟨rfl, rfl⟩
  · intro g hg hdet
    constructor
    · rw [GetViewValue, hg]
      simp [hdet]
    · intro hco
      rw [SetViewValue, hg, hco]
      simp [hdet]
  · intro g hg hdet hoob
    constructor
    · rw [GetViewValue, hg]
      simp [hdet, hoob]
    · intro hco
      rw [SetViewValue, hg, hco]
      simp [hdet, hoob]
  · intro g hg hdet hok
    have hnoob : ¬ (view.ByteLength < g + ElementSize t) := by omega
    refine ⟨?_, ?_, ?_⟩
    · rw [GetViewValue, hg]
      simp [hdet, hnoob]
    · intro hco
      rw [SetViewValue, hg, hco]
      simp [hdet, hnoob]
    · intro block hblock hfit
      rw [GetViewValue, hg]
      simp only [hdet, Bool.false_eq_true, if_false, hnoob]
      rw [AB.GetValueFromBuffer]
      have hdet2 : AB.IsDetachedBuffer view.ViewedArrayBuffer = false := hdet
      have hsh : AB.IsSharedArrayBuffer view.ViewedArrayBuffer = false := by
        rw [AB.IsSharedArrayBuffer, hblock]
      rw [hdet2, hsh]
      simp only [Bool.false_eq_true, if_false]
      rw [hblock]
      have hraw : ((block.drop (g + view.ByteOffset)).take (ElementSize t)).length
          = ElementSize t := by
        rw [List.length_take, List.length_drop]
        omega
      simp [AB.RawBytesToNumeric, hraw]

/-- Concrete check of `viewValue_checks`: a two-byte-long view over a
four-byte buffer rejects an Int16 read at index 1 with a RangeError. -/
theorem viewValue_checks_witness :
    GetViewValue ⟨⟨.block [1, 2, 3, 4], 4⟩, 2, 0⟩ (.q 1) true .int16 true =
      some (.error .rangeError) :=
  ((viewValue_checks ⟨⟨.block [1, 2, 3, 4], 4⟩, 2, 0⟩ (.q 1) true .int16
      (.int 0) true).2.2.1 1 (by decide) (by decide) (by decide)).1

/-- The property key "length". -/
def lengthKey : JSVal := .str [108, 101, 110, 103, 116, 104]

/-- Modelled from the spec: ToNumber restricted to the primitives the array
length claims exercise (string and object coercion, and the TypeError paths
for symbols and BigInts, are outside the model). -/
def ToNumberV : JSVal → Option JSNum
  | .num n => some n
  | .bool b => some (.q (if b then 1 else 0))
  | .undef => some .nan
  | .null => some (.q 0)
  | _ => none

/-- The deletion loop of ArraySetLength
(src/src/abstract-ops/private-names.mts): delete the collected keys in
order; at the first refused deletion redefine length to that index plus one
(restoring Writable when it was being cleared) and fail; on completion clear
Writable when requested and succeed. -/
def arraySetLengthLoop (A : OrdObj) (newLenDesc : Descriptor)
    (newWritable : Bool) : List JSVal → Bool × OrdObj
  | [] =>
    if newWritable = false then
      (true, (OrdinaryDefineOwnProperty A lengthKey { Writable := some false }).2)
    else (true, A)
  | P :: rest =>
    match OrdinaryDelete A P with
    | (true, A1) => arraySetLengthLoop A1 newLenDesc newWritable rest
    | (false, A1) =>
        let nld := { newLenDesc with
          Value := some (.num (.q ((keyNumber P : Nat) + 1)))
          Writable := if newWritable = false then some false
                      else newLenDesc.Writable }
        (false, (OrdinaryDefineOwnProperty A1 lengthKey nld).2)

/-- ArraySetLength (src/src/abstract-ops/private-names.mts): coerce the new
length with ToUint32, RangeError when that differs (as host numbers) from
ToNumber of the same value, redefine length, and when shrinking delete the
array-index properties at or above the new length in descending numeric
order through `arraySetLengthLoop`.  `none` marks states the source only
reaches through failing internal assertions or host coercions outside the
model. -/
def ArraySetLength (A : OrdObj) (Desc : Descriptor) :
    Option (Except JsErr (Bool × OrdObj)) :=
  match Desc.Value with
  | none => some (.ok (OrdinaryDefineOwnProperty A lengthKey Desc))
  | some v =>
    match ToNumberV v with
    | none => none
    | some numberLen =>
      let newLen := ToUint32 numberLen
      if JSNum.jsEqual (.q newLen) numberLen = false then
        some (.error .rangeError)
      else
        let newLenDesc := { Desc with Value := some (.num (.q newLen)) }
        match OrdinaryGetOwnProperty A.properties lengthKey with
        | none => none
        | some oldLenDesc =>
          match oldLenDesc.Value with
          | some (.num (.q oldLen)) =>
            if oldLen ≤ (newLen : ℚ) then
              some (.ok (OrdinaryDefineOwnProperty A lengthKey newLenDesc))
            else if oldLenDesc.Writable = some false then
              some (.ok (false, A))
            else
              let newWritable := !(newLenDesc.Writable == some false)
              let newLenDesc2 := if newWritable then newLenDesc
                else { newLenDesc with Writable := some true }
              match OrdinaryDefineOwnProperty A lengthKey newLenDesc2 with
              | (false, A1) => some (.ok (false, A1))
              | (true, A1) =>
                  let keys := (A1.properties.filter (fun e =>
                    isArrayIndex e.1 && decide (newLen ≤ keyNumber e.1))).map
                      Prod.fst
                  let sortedKeys := keys.insertionSort
                    (fun a b => keyNumber b ≤ keyNumber a)
                  some (.ok (arraySetLengthLoop A1 newLenDesc2 newWritable
                    sortedKeys))
          | _ => none

/-- Lookup on a cons cell. -/
theorem mapGet_cons (k0 : JSVal) (d1 : Descriptor) (rest : PropMap)
    (k : JSVal) :
    mapGet ((k0, d1) :: rest) k = if k0 == k then some d1 else mapGet rest k := by
  rw [mapGet, List.find?_cons]
  by_cases h : k0 == k
  · simp [h]
  · simp [h, mapGet]

/-- Updating a present key keeps the key list. -/
theorem mapSet_keys_of_present (m : PropMap) (k : JSVal) (d0 d : Descriptor)
    (h : mapGet m k = some d0) :
    (mapSet m k d).map Prod.fst = m.map Prod.fst := by
  induction m with
  | nil => simp [mapGet] at h
  | cons e rest ih =>
    obtain ⟨k0, d1⟩ := e
    rw [mapGet_cons] at h
    rw [mapSet]
    by_cases hk : k0 == k
    · simp only [hk, if_true]
      simp [(beq_iff_eq ..).mp hk]
    · simp only [hk, Bool.false_eq_true, if_false] at h ⊢
      simp only [List.map_cons, List.cons.injEq]
      exact ⟨by trivial, ih h⟩

/-- Lookup after update at the same key. -/
theorem mapGet_mapSet_self (m : PropMap) (k : JSVal) (d : Descriptor) :
    mapGet (mapSet m k d) k = some d := by
  induction m with
  | nil =>
    rw [mapSet, mapGet_cons]
    simp
  | cons e rest ih =>
    obtain ⟨k0, d1⟩ := e
    rw [mapSet]
    by_cases hk : k0 == k
    · simp only [hk, if_true]
      rw [mapGet_cons]
      simp
    · simp only [hk, Bool.false_eq_true, if_false]
      rw [mapGet_cons]
      simp only [hk, Bool.false_eq_true, if_false]
      exact ih

/-- Lookup after update at another key. -/
theorem mapGet_mapSet_ne (m : PropMap) (k k2 : JSVal) (d : Descriptor)
    (h : k2 ≠ k) : mapGet (mapSet m k d) k2 = mapGet m k2 := by
  have hkk2 : ((k == k2) : Bool) = false := by
    simp only [beq_eq_false_iff_ne]
    exact fun hkk => h hkk.symm
  induction m with
  | nil =>
    rw [mapSet, mapGet_cons]
    simp [hkk2, mapGet]
  | cons e rest ih =>
    obtain ⟨k0, d1⟩ := e
    rw [mapSet]
    by_cases hk : k0 == k
    · simp only [hk, if_true]
      rw [mapGet_cons, mapGet_cons]
      have hk02 : ((k0 == k2) : Bool) = false := by
        simp only [beq_eq_false_iff_ne]
        intro hkk
        exact h (hkk ▸ (beq_iff_eq ..).mp hk)
      simp [hkk2, hk02]
    · simp only [hk, Bool.false_eq_true, if_false]
      rw [mapGet_cons, mapGet_cons]
      by_cases h0 : k0 == k2
      · simp [h0]
      · simp only [h0, Bool.false_eq_true, if_false]
        exact ih

/-- Deletion is a sublist. -/
theorem mapDelete_sublist (m : PropMap) (k : JSVal) :
    (mapDelete m k).Sublist m := by
  induction m with
  | nil => simp [mapDelete]
  | cons e rest ih =>
    obtain ⟨k0, d1⟩ := e
    rw [mapDelete]
    by_cases hk : k0 == k
    · simp only [hk, if_true]
      exact List.sublist_cons_self _ _
    · simp only [hk, Bool.false_eq_true, if_false]
      exact List.Sublist.cons₂ _ ih

/-- Lookup after deletion at another key. -/
theorem mapGet_mapDelete_ne (m : PropMap) (k k2 : JSVal) (h : k2 ≠ k) :
    mapGet (mapDelete m k) k2 = mapGet m k2 := by
  induction m with
  | nil => rfl
  | cons e rest ih =>
    obtain ⟨k0, d1⟩ := e
    rw [mapDelete]
    by_cases hk : k0 == k
    · simp only [hk, if_true]
      rw [mapGet_cons]
      have hk02 : ((k0 == k2) : Bool) = false := by
        simp only [beq_eq_false_iff_ne]
        intro hkk
        exact h (hkk ▸ (beq_iff_eq ..).mp hk)
      simp [hk02]
    · simp only [hk, Bool.false_eq_true, if_false]
      rw [mapGet_cons, mapGet_cons]
      by_cases h0 : k0 == k2
      · simp [h0]
      · simp only [h0, Bool.false_eq_true, if_false]
        exact ih

/-- Lookup after deletion at the deleted key, under distinct keys. -/
theorem mapGet_mapDelete_self (m : PropMap) (k : JSVal)
    (hnodup : (m.map Prod.fst).Nodup) : mapGet (mapDelete m k) k = none := by
  induction m with
  | nil => rfl
  | cons e rest ih =>
    obtain ⟨k0, d1⟩ := e
    rw [mapDelete]
    simp only [List.map_cons, List.nodup_cons] at hnodup
    by_cases hk : k0 == k
    · simp only [hk, if_true]
      have hkk : k0 = k := (beq_iff_eq ..).mp hk
      subst hkk
      rw [mapGet]
      rcases hf : rest.find? (fun e => e.1 == k0) with _ | ⟨ke, de⟩
      · rw [hf]
        rfl
      · exfalso
        have hmem := List.find?_some hf
        have hin := List.mem_of_find?_eq_some hf
        simp only [beq_iff_eq] at hmem
        exact hnodup.1 (hmem ▸ List.mem_map_of_mem Prod.fst hin)
    · simp only [hk, Bool.false_eq_true, if_false]
      rw [mapGet_cons]
      simp only [hk, Bool.false_eq_true, if_false]
      exact ih hnodup.2

/-- A member binding is found, under distinct keys. -/
theorem mapGet_eq_some_of_mem (m : PropMap) (k : JSVal) (d : Descriptor)
    (hnodup : (m.map Prod.fst).Nodup) (h : (k, d) ∈ m) :
    mapGet m k = some d := by
  induction m with
  | nil => cases h
  | cons e rest ih =>
    obtain ⟨k0, d1⟩ := e
    simp only [List.map_cons, List.nodup_cons] at hnodup
    rw [mapGet_cons]
    rcases List.mem_cons.mp h with he | he
    · cases he
      simp
    · by_cases hk : k0 == k
      · exfalso
        have hkm : k ∈ rest.map Prod.fst := List.mem_map_of_mem Prod.fst he
        have hke : k0 = k := (beq_iff_eq ..).mp hk
        exact hnodup.1 (hke ▸ hkm)
      · simp only [hk, Bool.false_eq_true, if_false]
        exact ih hnodup.2 he

/-- A successful lookup was a member. -/
theorem mem_of_mapGet_eq_some (m : PropMap) (k : JSVal) (d : Descriptor)
    (h : mapGet m k = some d) : (k, d) ∈ m := by
  rw [mapGet] at h
  rcases hf : m.find? (fun e => e.1 == k) with _ | ⟨ke, de⟩
  · rw [hf] at h
    cases h
  · rw [hf] at h
    have hkey := List.find?_some hf
    have hmem := List.mem_of_find?_eq_some hf
    simp only [beq_iff_eq] at hkey
    simp at h
    subst hkey
    subst h
    exact hmem

/-- Updating a key the predicate never selects leaves a filter unchanged. -/
theorem filter_mapSet_pred_false (m : PropMap) (k : JSVal) (d : Descriptor)
    (p : JSVal × Descriptor → Bool) (hp : ∀ d2, p (k, d2) = false) :
    (mapSet m k d).filter p = m.filter p := by
  induction m with
  | nil =>
    rw [mapSet]
    simp [hp]
  | cons e rest ih =>
    obtain ⟨k0, d1⟩ := e
    rw [mapSet]
    by_cases hk : k0 == k
    · have hkk : k0 = k := (beq_iff_eq ..).mp hk
      subst hkk
      simp only [hk, if_true]
      rw [List.filter_cons, List.filter_cons]
      simp [hp]
    · simp only [hk, Bool.false_eq_true, if_false]
      rw [List.filter_cons, List.filter_cons]
      rcases hpe : p (k0, d1) with _ | _
      · simp only [Bool.false_eq_true, if_false]
        exact ih
      · simp only [if_true]
        rw [ih]

/-- OrdinaryDefineOwnProperty of a Value-only request against a stored
non-configurable writable data property merges the new Value into the stored
entry and succeeds (the path ArraySetLength takes for "length"). -/
theorem odop_merge_data (A : OrdObj) (k : JSVal) (stored : Descriptor)
    (Desc : Descriptor)
    (hstored : mapGet A.properties k = some stored)
    (hsV : stored.Value.isSome = true) (hsG : stored.Get = none)
    (hsS : stored.Set = none) (hsW : stored.Writable = some true)
    (hsC : stored.Configurable = some false)
    (hdV : Desc.Value.isSome = true) (hdG : Desc.Get = none)
    (hdS : Desc.Set = none) (hdW : Desc.Writable = none)
    (hdE : Desc.Enumerable = none) (hdC : Desc.Configurable = none) :
    OrdinaryDefineOwnProperty A k Desc =
      (true, { A with properties := mapSet A.properties k ({ stored with Value := Desc.Value }) }) := by
  obtain ⟨v, hv⟩ := Option.isSome_iff_exists.mp hdV
  obtain ⟨sv, hsv⟩ := Option.isSome_iff_exists.mp hsV
  have hsdata : IsDataDescriptor stored = true := by
    rw [IsDataDescriptor, hsv]
    simp
  have hddata : IsDataDescriptor Desc = true := by
    rw [IsDataDescriptor, hv]
    simp
  have hgown : OrdinaryGetOwnProperty A.properties k = some
      { Value := stored.Value, Writable := stored.Writable,
        Get := none, Set := none,
        Enumerable := stored.Enumerable, Configurable := stored.Configurable } := by
    rw [OrdinaryGetOwnProperty, hstored]
    simp [hsdata]
  have habs : Desc.everyFieldIsAbsent = false := by
    simp [Descriptor.everyFieldIsAbsent, hv]
  have hgen : IsGenericDescriptor Desc = false := by
    simp [IsGenericDescriptor, hddata]
  have hcdata : IsDataDescriptor
      { Value := stored.Value, Writable := stored.Writable,
        Get := none, Set := none,
        Enumerable := stored.Enumerable, Configurable := stored.Configurable
        : Descriptor } = true := by
    rw [IsDataDescriptor]
    simp only
    rw [hsv]
    simp
  have happly : applyDescFields (some A.properties) k Desc =
      some (mapSet A.properties k { stored with Value := Desc.Value }) := by
    rw [applyDescFields, hstored]
    congr 2
    rw [hv, hsG, hsS, hdG, hdS, hdW, hdE, hdC]
    cases stored
    simp_all
  simp only [OrdinaryDefineOwnProperty, hgown, ValidateAndApplyPropertyDescriptor,
    habs, Bool.false_eq_true, if_false, hgen, hcdata, hddata]
  rw [hdC, hdE]
  simp only [hsW, hsC]
  norm_num
  rw [happly, hsW, hsC]
  simp

/-- Deleting an absent property succeeds vacuously. -/
theorem ordinaryDelete_absent (A : OrdObj) (P : JSVal)
    (h : mapGet A.properties P = none) : OrdinaryDelete A P = (true, A) := by
  rw [OrdinaryDelete, OrdinaryGetOwnProperty, h]

/-- Deleting a configurable property removes its entry. -/
theorem ordinaryDelete_config (A : OrdObj) (P : JSVal) (d : Descriptor)
    (h : mapGet A.properties P = some d) (hc : d.Configurable = some true) :
    OrdinaryDelete A P =
      (true, { A with properties := mapDelete A.properties P }) := by
  rw [OrdinaryDelete, OrdinaryGetOwnProperty, h]
  simp [hc]

/-- Deleting a property that is not configurable is refused. -/
theorem ordinaryDelete_refuse (A : OrdObj) (P : JSVal) (d : Descriptor)
    (h : mapGet A.properties P = some d) (hc : d.Configurable ≠ some true) :
    OrdinaryDelete A P = (false, A) := by
  rw [OrdinaryDelete, OrdinaryGetOwnProperty, h]
  simp [hc]

/-- The deletion loop with every listed key deletable succeeds, removes the
listed keys and touches nothing else. -/
theorem arraySetLengthLoop_all (nld : Descriptor) (ks : List JSVal) :
    ∀ A : OrdObj,
      (A.properties.map Prod.fst).Nodup →
      (∀ P ∈ ks, ∀ d, mapGet A.properties P = some d →
        d.Configurable = some true) →
      ∃ A2, arraySetLengthLoop A nld true ks = (true, A2)
        ∧ (∀ P ∈ ks, mapGet A2.properties P = none)
        ∧ (∀ P, P ∉ ks → mapGet A2.properties P = mapGet A.properties P) := by
  induction ks with
  | nil =>
    intro A _ _
    exact ⟨A, rfl, fun P hP => absurd hP (List.not_mem_nil P),
      fun P _ => rfl⟩
  | cons P rest ih =>
    intro A hnodup hdel
    rcases hg : mapGet A.properties P with _ | d
    · have hstep := ordinaryDelete_absent A P hg
      obtain ⟨A2, hr, hdel2, hun⟩ :=
        ih A hnodup (fun Q hQ => hdel Q (List.mem_cons_of_mem _ hQ))
      refine ⟨A2, ?_, ?_, ?_⟩
      · rw [arraySetLengthLoop, hstep]
        exact hr
      · intro Q hQ
        rcases List.mem_cons.mp hQ with rfl | he
        · by_cases hmem : Q ∈ rest
          · exact hdel2 Q hmem
          · rw [hun Q hmem]
            exact hg
        · exact hdel2 Q he
      · intro Q hQ
        exact hun Q (fun hm => hQ (List.mem_cons_of_mem _ hm))
    · have hcfg := hdel P (List.mem_cons_self P rest) d hg
      have hstep := ordinaryDelete_config A P d hg hcfg
      have hsub : ((mapDelete A.properties P).map Prod.fst).Nodup :=
        ((mapDelete_sublist A.properties P).map Prod.fst).nodup hnodup
      obtain ⟨A2, hr, hdel2, hun⟩ :=
        ih { A with properties := mapDelete A.properties P } hsub
          (by
            intro Q hQ d2 hQ2
            by_cases hQP : Q = P
            · subst hQP
              rw [show mapGet { A with
                    properties := mapDelete A.properties Q : OrdObj }.properties Q
                  = none from mapGet_mapDelete_self A.properties Q hnodup] at hQ2
              cases hQ2
            · rw [show mapGet { A with
                    properties := mapDelete A.properties P : OrdObj }.properties Q
                  = mapGet A.properties Q
                  from mapGet_mapDelete_ne A.properties P Q hQP] at hQ2
              exact hdel Q (List.mem_cons_of_mem _ hQ) d2 hQ2)
      refine ⟨A2, ?_, ?_, ?_⟩
      · rw [arraySetLengthLoop, hstep]
        exact hr
      · intro Q hQ
        rcases List.mem_cons.mp hQ with rfl | he
        · by_cases hmem : Q ∈ rest
          · exact hdel2 Q hmem
          · rw [hun Q hmem]
            exact mapGet_mapDelete_self A.properties Q hnodup
        · exact hdel2 Q he
      · intro Q hQ
        rw [hun Q (fun hm => hQ (List.mem_cons_of_mem _ hm))]
        exact mapGet_mapDelete_ne A.properties P Q
          (fun he => hQ (he ▸ List.mem_cons_self P rest))

/-- The deletion loop hitting a non-configurable index i (all higher listed
indices deletable) fails, deletes the higher indices, and rewrites length to
i + 1. -/
theorem arraySetLengthLoop_fail (nld stored : Descriptor) (i : Nat)
    (hnG : nld.Get = none) (hnS : nld.Set = none) (hnW : nld.Writable = none)
    (hnE : nld.Enumerable = none) (hnC : nld.Configurable = none)
    (hsV : stored.Value.isSome = true) (hsG : stored.Get = none)
    (hsS : stored.Set = none) (hsW : stored.Writable = some true)
    (hsC : stored.Configurable = some false) :
    ∀ (ks : List JSVal) (A : OrdObj),
      (A.properties.map Prod.fst).Nodup →
      mapGet A.properties lengthKey = some stored →
      lengthKey ∉ ks →
      (∀ P ∈ ks, P = .str (natToUnits (keyNumber P))) →
      ks.Pairwise (fun a b => keyNumber b ≤ keyNumber a) →
      (.str (natToUnits i)) ∈ ks →
      (∀ P ∈ ks, i < keyNumber P → ∀ d, mapGet A.properties P = some d →
        d.Configurable = some true) →
      (∀ d, mapGet A.properties (.str (natToUnits i)) = some d →
        d.Configurable ≠ some true) →
      (mapGet A.properties (.str (natToUnits i))).isSome = true →
      ∃ A2, arraySetLengthLoop A nld true ks = (false, A2)
        ∧ mapGet A2.properties lengthKey =
            some ({ stored with Value := some (.num (.q ((i + 1 : Nat)))) })
        ∧ (∀ P ∈ ks, i < keyNumber P → mapGet A2.properties P = none)
        ∧ (∀ Q, Q ≠ lengthKey → mapGet A.properties Q = none →
            mapGet A2.properties Q = none) := by
  intro ks
  induction ks with
  | nil =>
    intro A _ _ _ _ _ hmem _ _ _
    exact absurd hmem (List.not_mem_nil _)
  | cons P rest ih =>
    intro A hnodup hlen hnotin hcanon hsorted hmem hbig hfailc hfails
    have hPlen : P ≠ lengthKey :=
      fun he => hnotin (he ▸ List.mem_cons_self P rest)
    have hpw := List.pairwise_cons.mp hsorted
    by_cases hPi : P = .str (natToUnits i)
    · subst hPi
      obtain ⟨d, hd⟩ := Option.isSome_iff_exists.mp hfails
      have hstep := ordinaryDelete_refuse A _ d hd (hfailc d hd)
      have hodop := odop_merge_data A lengthKey stored
        ({ nld with
            Value := some (.num (.q ((keyNumber (.str (natToUnits i)) : Nat) + 1)))
            Writable := if (true : Bool) = false then some false
                        else nld.Writable })
        hlen hsV hsG hsS hsW hsC rfl hnG hnS (by simp [hnW]) hnE hnC
      refine ⟨{ A with properties := mapSet A.properties lengthKey ({ stored with Value := some (.num (.q ((keyNumber (.str (natToUnits i)) : Nat) + 1))) }) }, ?_, ?_, ?_, ?_⟩
      · rw [arraySetLengthLoop, hstep]
        simp only
        rw [hodop]
      · rw [mapGet_mapSet_self, keyNumber_natToUnits]
        norm_cast
      · intro Q hQ hiQ
        exfalso
        rcases List.mem_cons.mp hQ with rfl | he
        · rw [keyNumber_natToUnits] at hiQ
          exact Nat.lt_irrefl i hiQ
        · have := hpw.1 Q he
          rw [keyNumber_natToUnits] at this
          omega
      · intro Q hQlen hQnone
        rw [mapGet_mapSet_ne _ _ _ _ hQlen]
        exact hQnone
    · have hmem2 : (.str (natToUnits i) : JSVal) ∈ rest := by
        rcases List.mem_cons.mp hmem with he | he
        · exact absurd he.symm hPi
        · exact he
      have hiP : i < keyNumber P := by
        have hle := hpw.1 _ hmem2
        rw [keyNumber_natToUnits] at hle
        rcases Nat.lt_or_ge i (keyNumber P) with h | h
        · exact h
        · exfalso
          have hPi2 : keyNumber P = i := by omega
          exact hPi (by rw [hcanon P (List.mem_cons_self P rest), hPi2])
      rcases hg : mapGet A.properties P with _ | d
      · have hstep := ordinaryDelete_absent A P hg
        obtain ⟨A2, hr, hl2, hdel2, habs2⟩ := ih A hnodup hlen
          (fun hm => hnotin (List.mem_cons_of_mem _ hm))
          (fun Q hQ => hcanon Q (List.mem_cons_of_mem _ hQ)) hpw.2 hmem2
          (fun Q hQ => hbig Q (List.mem_cons_of_mem _ hQ)) hfailc hfails
        refine ⟨A2, ?_, hl2, ?_, habs2⟩
        · rw [arraySetLengthLoop, hstep]
          exact hr
        · intro Q hQ hiQ
          rcases List.mem_cons.mp hQ with rfl | he
          · exact habs2 Q hPlen hg
          · exact hdel2 Q he hiQ
      · have hcfg := hbig P (List.mem_cons_self P rest) hiP d hg
        have hstep := ordinaryDelete_config A P d hg hcfg
        have hsub : ((mapDelete A.properties P).map Prod.fst).Nodup :=
          ((mapDelete_sublist A.properties P).map Prod.fst).nodup hnodup
        have hiPne : (.str (natToUnits i) : JSVal) ≠ P := by
          intro he
          exact hPi he.symm
        obtain ⟨A2, hr, hl2, hdel2, habs2⟩ :=
          ih { A with properties := mapDelete A.properties P } hsub
            (by
              rw [show mapGet { A with
                    properties := mapDelete A.properties P : OrdObj }.properties
                    lengthKey = mapGet A.properties lengthKey
                  from mapGet_mapDelete_ne A.properties P lengthKey hPlen.symm]
              exact hlen)
            (fun hm => hnotin (List.mem_cons_of_mem _ hm))
            (fun Q hQ => hcanon Q (List.mem_cons_of_mem _ hQ)) hpw.2 hmem2
            (by
              intro Q hQ hiQ d2 hQ2
              by_cases hQP : Q = P
              · subst hQP
                rw [show mapGet { A with
                      properties := mapDelete A.properties Q : OrdObj }.properties Q
                    = none from mapGet_mapDelete_self A.properties Q hnodup] at hQ2
                cases hQ2
              · rw [show mapGet { A with
                      properties := mapDelete A.properties P : OrdObj }.properties Q
                    = mapGet A.properties Q
                    from mapGet_mapDelete_ne A.properties P Q hQP] at hQ2
                exact hbig Q (List.mem_cons_of_mem _ hQ) hiQ d2 hQ2)
            (by
              rw [show mapGet { A with
                    properties := mapDelete A.properties P : OrdObj }.properties
                    (.str (natToUnits i)) = mapGet A.properties (.str (natToUnits i))
                  from mapGet_mapDelete_ne A.properties P _ hiPne]
              exact hfailc)
            (by
              rw [show mapGet { A with
                    properties := mapDelete A.properties P : OrdObj }.properties
                    (.str (natToUnits i)) = mapGet A.properties (.str (natToUnits i))
                  from mapGet_mapDelete_ne A.properties P _ hiPne]
              exact hfails)
        refine ⟨A2, ?_, hl2, ?_, ?_⟩
        · rw [arraySetLengthLoop, hstep]
          exact hr
        · intro Q hQ hiQ
          rcases List.mem_cons.mp hQ with rfl | he
          · exact habs2 Q hPlen (mapGet_mapDelete_self A.properties Q hnodup)
          · exact hdel2 Q he hiQ
        · intro Q hQlen hQnone
          refine habs2 Q hQlen ?_
          by_cases hQP : Q = P
          · subst hQP
            exact mapGet_mapDelete_self A.properties Q hnodup
          · rw [mapGet_mapDelete_ne A.properties P Q hQP]
            exact hQnone

/-- Reduction of ArraySetLength along the shrinking path: a valid new length
below the stored one, against a writable non-configurable length data
property, reaches the deletion loop on the sorted kept-out index keys. -/
theorem arraySetLength_shrink (A : OrdObj) (nv : JSNum) (oldLen : Nat)
    (en : Bool)
    (hlen : mapGet A.properties lengthKey =
      some { Value := some (.num (.q (oldLen : ℚ))), Writable := some true,
             Enumerable := some en, Configurable := some false })
    (hje : JSNum.jsEqual (.q (ToUint32 nv)) nv = true)
    (hlt : ToUint32 nv < oldLen) :
    ArraySetLength A ({ Value := some (.num nv) }) =
      some (.ok (arraySetLengthLoop
        { A with properties := mapSet A.properties lengthKey ({ Value := some (.num (.q (ToUint32 nv))), Writable := some true, Enumerable := some en, Configurable := some false }) }
        ({ Value := some (.num (.q (ToUint32 nv))) }) true
        (((A.properties.filter (fun e => isArrayIndex e.1 &&
            decide (ToUint32 nv ≤ keyNumber e.1))).map Prod.fst).insertionSort
          (fun a b => keyNumber b ≤ keyNumber a)))) := by
  have hgown : OrdinaryGetOwnProperty A.properties lengthKey =
      some { Value := some (.num (.q (oldLen : ℚ))), Writable := some true,
             Get := none, Set := none, Enumerable := some en,
             Configurable := some false } := by
    rw [OrdinaryGetOwnProperty, hlen]
    rfl
  have hodop := odop_merge_data A lengthKey
    ({ Value := some (.num (.q (oldLen : ℚ))), Writable := some true,
       Enumerable := some en, Configurable := some false })
    ({ Value := some (.num (.q (ToUint32 nv))) })
    hlen rfl rfl rfl rfl rfl rfl rfl rfl rfl rfl rfl
  have hnotle : ¬ ((oldLen : ℚ) ≤ ((ToUint32 nv : Nat) : ℚ)) := by
    rw [not_le]
    exact_mod_cast hlt
  simp only [ArraySetLength, ToNumberV]
  rw [if_neg (by rw [hje]; simp)]
  rw [hgown]
  simp only []
  rw [if_neg hnotle]
  rw [if_neg (by simp)]
  have hb : (!((none : Option Bool) == some false)) = true := rfl
  rw [hb]
  simp only [eq_self_iff_true, if_true]
  rw [hodop]
  dsimp only
  rw [filter_mapSet_pred_false _ _ _ _ (by intro d2; simp [lengthKey, isArrayIndex, canonicalNumericNat?, decimalNat?])]

/-- ArraySetLength signals a RangeError exactly on the ToUint32/ToNumber
mismatch. -/
theorem arraySetLength_rangeError (A : OrdObj) (nv : JSNum)
    (hje : JSNum.jsEqual (.q (ToUint32 nv)) nv = false) :
    ArraySetLength A ({ Value := some (.num nv) }) =
      some (.error .rangeError) := by
  simp only [ArraySetLength, ToNumberV]
  rw [if_pos hje]

/-- ArraySetLength returns a normal completion when the coerced length is
faithful, for a writable non-configurable stored length. -/
theorem arraySetLength_ok (A : OrdObj) (nv : JSNum) (oldLen : Nat) (en : Bool)
    (hlen : mapGet A.properties lengthKey =
      some { Value := some (.num (.q (oldLen : ℚ))), Writable := some true,
             Enumerable := some en, Configurable := some false })
    (hje : JSNum.jsEqual (.q (ToUint32 nv)) nv = true) :
    ∃ r, ArraySetLength A ({ Value := some (.num nv) }) = some (.ok r) := by
  by_cases hle : (oldLen : ℚ) ≤ ((ToUint32 nv : Nat) : ℚ)
  · have hgown : OrdinaryGetOwnProperty A.properties lengthKey =
        some { Value := some (.num (.q (oldLen : ℚ))), Writable := some true,
               Get := none, Set := none, Enumerable := some en,
               Configurable := some false } := by
      rw [OrdinaryGetOwnProperty, hlen]
      rfl
    refine ⟨OrdinaryDefineOwnProperty A lengthKey ({ Value := some (.num (.q (ToUint32 nv))) }), ?_⟩
    simp only [ArraySetLength, ToNumberV]
    rw [if_neg (by rw [hje]; simp)]
    rw [hgown]
    dsimp only
    rw [if_pos hle]
  · have hlt : ToUint32 nv < oldLen := by
      have := not_le.mp hle
      exact_mod_cast this
    exact ⟨_, arraySetLength_shrink A nv oldLen en hlen hje hlt⟩

/-- An array-index key is the canonical spelling of its bounded numeric
value, and is never the key "length". -/
theorem arrayIndexKey_facts (P : JSVal) (h : isArrayIndex P = true) :
    P = .str (natToUnits (keyNumber P)) ∧ keyNumber P < 2 ^ 32 - 1
      ∧ P ≠ lengthKey := by
  obtain ⟨n, hb, rfl⟩ := (isArrayIndex_iff P).mp h
  rw [keyNumber_natToUnits]
  refine ⟨rfl, hb, ?_⟩
  intro he
  rw [he] at h
  exact absurd h (by decide)

/-- C3: ArraySetLength with a present Value coerces it with ToUint32 and
reports a RangeError exactly when the coerced value differs, as a host
number, from ToNumber of the request; on a valid shrink of a writable
non-configurable length it deletes the own array-index properties at or
above the new length — succeeding with length set to the new value when all
of them are configurable, and, when a non-configurable index survives with
every higher index deletable, failing with length rewritten to that index
plus one and exactly the higher indices removed. -/
theorem arraySetLength_spec (A : OrdObj) (nv : JSNum) (oldLen : Nat)
    (en : Bool)
    (hnodup : (A.properties.map Prod.fst).Nodup)
    (hlen : mapGet A.properties lengthKey =
      some { Value := some (.num (.q (oldLen : ℚ))), Writable := some true,
             Enumerable := some en, Configurable := some false }) :
    (ArraySetLength A ({ Value := some (.num nv) }) = some (.error .rangeError)
      ↔ JSNum.jsEqual (.q (ToUint32 nv)) nv = false)
    ∧ (JSNum.jsEqual (.q (ToUint32 nv)) nv = true → ToUint32 nv < oldLen →
        ((∀ j, ToUint32 nv ≤ j → j < 2 ^ 32 - 1 → ∀ d,
            mapGet A.properties (.str (natToUnits j)) = some d →
            d.Configurable = some true) →
          ∃ A2, ArraySetLength A ({ Value := some (.num nv) }) =
              some (.ok (true, A2))
            ∧ mapGet A2.properties lengthKey =
                some { Value := some (.num (.q (ToUint32 nv))),
                       Writable := some true, Enumerable := some en,
                       Configurable := some false }
            ∧ (∀ j, ToUint32 nv ≤ j → j < 2 ^ 32 - 1 →
                mapGet A2.properties (.str (natToUnits j)) = none)
            ∧ (∀ P, P ≠ lengthKey →
                (isArrayIndex P = false ∨ keyNumber P < ToUint32 nv) →
                mapGet A2.properties P = mapGet A.properties P))
        ∧ (∀ i, ToUint32 nv ≤ i → i < 2 ^ 32 - 1 →
            (∀ d, mapGet A.properties (.str (natToUnits i)) = some d →
              d.Configurable ≠ some true) →
            (mapGet A.properties (.str (natToUnits i))).isSome = true →
            (∀ j, i < j → j < 2 ^ 32 - 1 → ∀ d,
              mapGet A.properties (.str (natToUnits j)) = some d →
              d.Configurable = some true) →
            ∃ A2, ArraySetLength A ({ Value := some (.num nv) }) =
                some (.ok (false, A2))
              ∧ mapGet A2.properties lengthKey =
                  some { Value := some (.num (.q ((i + 1 : Nat)))),
                         Writable := some true, Enumerable := some en,
                         Configurable := some false }
              ∧ (∀ j, i < j → j < 2 ^ 32 - 1 →
                  mapGet A2.properties (.str (natToUnits j)) = none))) := by
  constructor
  · constructor
    · intro herr
      cases hb : JSNum.jsEqual (.q (ToUint32 nv)) nv
      · rfl
      · exfalso
        obtain ⟨r, hr⟩ := arraySetLength_ok A nv oldLen en hlen hb
        rw [hr] at herr
        simp at herr
    · exact arraySetLength_rangeError A nv
  · intro hje hlt
    have hshrink := arraySetLength_shrink A nv oldLen en hlen hje hlt
    set newStored : Descriptor :=
      { Value := some (.num (.q (ToUint32 nv))), Writable := some true,
        Enumerable := some en, Configurable := some false } with hnewStored
    set nld : Descriptor := { Value := some (.num (.q (ToUint32 nv))) }
      with hnld
    set A1 : OrdObj :=
      { A with properties := mapSet A.properties lengthKey newStored }
      with hA1
    set ks : List JSVal := (A.properties.filter (fun e => isArrayIndex e.1 &&
      decide (ToUint32 nv ≤ keyNumber e.1))).map Prod.fst with hks
    set sks : List JSVal :=
      ks.insertionSort (fun a b => keyNumber b ≤ keyNumber a) with hsks
    have hA1nodup : (A1.properties.map Prod.fst).Nodup := by
      rw [hA1]
      dsimp only
      rw [mapSet_keys_of_present A.properties lengthKey _ newStored hlen]
      exact hnodup
    have hA1get : ∀ P, P ≠ lengthKey →
        mapGet A1.properties P = mapGet A.properties P := by
      intro P hP
      rw [hA1]
      exact mapGet_mapSet_ne _ _ _ _ hP
    have hA1len : mapGet A1.properties lengthKey = some newStored := by
      rw [hA1]
      exact mapGet_mapSet_self _ _ _
    have hperm : sks.Perm ks := by
      rw [hsks]
      exact List.perm_insertionSort _ _
    have hmem_sks : ∀ P, P ∈ sks ↔ ∃ d, (P, d) ∈ A.properties
        ∧ isArrayIndex P = true ∧ ToUint32 nv ≤ keyNumber P := by
      intro P
      rw [hperm.mem_iff, hks]
      constructor
      · intro h
        obtain ⟨e, he, hfst⟩ := List.mem_map.mp h
        obtain ⟨hel, hpred⟩ := List.mem_filter.mp he
        rw [Bool.and_eq_true, decide_eq_true_eq] at hpred
        subst hfst
        exact ⟨e.2, hel, hpred.1, hpred.2⟩
      · rintro ⟨d, hmem, hidx, hge⟩
        refine List.mem_map.mpr ⟨(P, d), List.mem_filter.mpr ⟨hmem, ?_⟩, rfl⟩
        rw [Bool.and_eq_true, decide_eq_true_eq]
        exact ⟨hidx, hge⟩
    have hsorted : sks.Pairwise (fun a b => keyNumber b ≤ keyNumber a) := by
      rw [hsks]
      letI : IsTotal JSVal (fun a b => keyNumber b ≤ keyNumber a) :=
        ⟨fun a b => (Nat.le_total (keyNumber a) (keyNumber b)).symm⟩
      letI : IsTrans JSVal (fun a b => keyNumber b ≤ keyNumber a) :=
        ⟨fun a b c hab hbc => le_trans hbc hab⟩
      exact List.sorted_insertionSort _ _
    have hcanon : ∀ P ∈ sks, P = .str (natToUnits (keyNumber P)) := by
      intro P hP
      obtain ⟨d, _, hidx, _⟩ := (hmem_sks P).mp hP
      exact (arrayIndexKey_facts P hidx).1
    have hlenout : lengthKey ∉ sks := by
      intro h
      obtain ⟨d, _, hidx, _⟩ := (hmem_sks lengthKey).mp h
      exact absurd hidx (by decide)
    refine ⟨?_, ?_⟩
    · intro hall
      obtain ⟨A2, hloop, hdel2, hun⟩ := arraySetLengthLoop_all nld sks A1
        hA1nodup (by
          intro P hP d hd
          obtain ⟨d0, hmem0, hidx, hge⟩ := (hmem_sks P).mp hP
          obtain ⟨hcan, hb, hne⟩ := arrayIndexKey_facts P hidx
          rw [hA1get P hne] at hd
          exact hall (keyNumber P) hge hb d (by rw [← hcan]; exact hd))
      refine ⟨A2, ?_, ?_, ?_, ?_⟩
      · rw [hshrink, hloop]
      · rw [hun lengthKey hlenout, hA1len, hnewStored]
      · intro j hge hb
        by_cases hin : (.str (natToUnits j) : JSVal) ∈ sks
        · exact hdel2 _ hin
        · have hnlen : (.str (natToUnits j) : JSVal) ≠ lengthKey :=
            (arrayIndexKey_facts _ ((isArrayIndex_iff _).mpr ⟨j, hb, rfl⟩)).2.2
          rw [hun _ hin, hA1get _ hnlen]
          rcases hg : mapGet A.properties (.str (natToUnits j)) with _ | d
          · rfl
          · exfalso
            refine hin ((hmem_sks _).mpr ⟨d, mem_of_mapGet_eq_some _ _ _ hg,
              (isArrayIndex_iff _).mpr ⟨j, hb, rfl⟩, ?_⟩)
            rw [keyNumber_natToUnits]
            exact hge
      · intro P hne hor
        have hnot : P ∉ sks := by
          intro hP
          obtain ⟨d, _, hidx, hge⟩ := (hmem_sks P).mp hP
          rcases hor with h | h
          · rw [hidx] at h
            cases h
          · omega
        rw [hun P hnot, hA1get P hne]
    · intro i hge hb hfailc hfails hall
      have hkeyi : isArrayIndex (.str (natToUnits i)) = true :=
        (isArrayIndex_iff _).mpr ⟨i, hb, rfl⟩
      have hneli : (.str (natToUnits i) : JSVal) ≠ lengthKey :=
        (arrayIndexKey_facts _ hkeyi).2.2
      have hmemi : (.str (natToUnits i) : JSVal) ∈ sks := by
        obtain ⟨d, hd⟩ := Option.isSome_iff_exists.mp hfails
        refine (hmem_sks _).mpr ⟨d, mem_of_mapGet_eq_some _ _ _ hd, hkeyi, ?_⟩
        rw [keyNumber_natToUnits]
        exact hge
      obtain ⟨A2, hloop, hl2, hdel2, habs2⟩ := arraySetLengthLoop_fail nld
        newStored i rfl rfl rfl rfl rfl rfl rfl rfl rfl rfl sks A1 hA1nodup
        hA1len hlenout hcanon hsorted hmemi
        (by
          intro P hP hiP d hd
          obtain ⟨d0, _, hidx, hge2⟩ := (hmem_sks P).mp hP
          obtain ⟨hcan, hb2, hne⟩ := arrayIndexKey_facts P hidx
          rw [hA1get P hne] at hd
          exact hall (keyNumber P) hiP hb2 d (by rw [← hcan]; exact hd))
        (by
          rw [hA1get _ hneli]
          exact hfailc)
        (by
          rw [hA1get _ hneli]
          exact hfails)
      refine ⟨A2, ?_, ?_, ?_⟩
      · rw [hshrink, hloop]
      · rw [hl2, hnewStored]
      · intro j hij hb2
        by_cases hin : (.str (natToUnits j) : JSVal) ∈ sks
        · refine hdel2 _ hin ?_
          rw [keyNumber_natToUnits]
          exact hij
        · have hnlen : (.str (natToUnits j) : JSVal) ≠ lengthKey :=
            (arrayIndexKey_facts _ ((isArrayIndex_iff _).mpr ⟨j, hb2, rfl⟩)).2.2
          refine habs2 _ hnlen ?_
          rw [hA1get _ hnlen]
          rcases hg : mapGet A.properties (.str (natToUnits j)) with _ | d
          · rfl
          · exfalso
            refine hin ((hmem_sks _).mpr ⟨d, mem_of_mapGet_eq_some _ _ _ hg,
              (isArrayIndex_iff _).mpr ⟨j, hb2, rfl⟩, ?_⟩)
            rw [keyNumber_natToUnits]
            omega

/-- Concrete check of `arraySetLength_spec`: shrinking a two-element array
(length 2, one configurable property at index 1) to length 1 succeeds,
rewrites length and deletes the property at index 1. -/
theorem arraySetLength_spec_witness : ∃ A2,
    ArraySetLength
      ⟨[(lengthKey, { Value := some (.num (.q ((2 : Nat) : ℚ))), Writable := some true, Enumerable := some false, Configurable := some false }), (.str (natToUnits 1), { Value := some (.num (.q 5)), Writable := some true, Enumerable := some true, Configurable := some true })], true⟩
      ({ Value := some (.num (.q 1)) }) = some (.ok (true, A2))
    ∧ mapGet A2.properties lengthKey =
        some { Value := some (.num (.q (ToUint32 (.q 1)))),
               Writable := some true, Enumerable := some false,
               Configurable := some false }
    ∧ mapGet A2.properties (.str (natToUnits 1)) = none := by
  obtain ⟨hsucc, _⟩ := (arraySetLength_spec
    ⟨[(lengthKey, { Value := some (.num (.q ((2 : Nat) : ℚ))), Writable := some true, Enumerable := some false, Configurable := some false }), (.str (natToUnits 1), { Value := some (.num (.q 5)), Writable := some true, Enumerable := some true, Configurable := some true })], true⟩
    (.q 1) 2 false (by decide) rfl).2 (by decide) (by decide)
  obtain ⟨A2, hres, hlen2, hdel, _⟩ := hsucc (by
    intro j h1 h2 d hd
    rw [mapGet_cons, mapGet_cons] at hd
    by_cases he1 : ((lengthKey == (.str (natToUnits j) : JSVal)) : Bool) = true
    · exfalso
      have heq := (beq_iff_eq ..).mp he1
      have hdu := decimalNat_natToUnits j
      have hlst : [108, 101, 110, 103, 116, 104] = natToUnits j := by
        have := heq
        rw [lengthKey] at this
        exact JSVal.str.inj this
      rw [← hlst] at hdu
      rw [show decimalNat? [108, 101, 110, 103, 116, 104] = none
        from by decide] at hdu
      cases hdu
    · rw [if_neg he1] at hd
      by_cases he2 : (((.str (natToUnits 1) : JSVal) ==
          (.str (natToUnits j) : JSVal)) : Bool) = true
      · rw [if_pos he2] at hd
        cases hd
        rfl
      · rw [if_neg he2] at hd
        cases hd)
  exact ⟨A2, hres, hlen2, hdel 1 (by decide) (by decide)⟩

/-- An object as seen by OrdinarySetPrototypeOf
(src/src/abstract-ops/arraybuffer-objects.mts): its Prototype slot, its
Extensible flag, and whether its GetPrototypeOf is the ordinary one (the
source compares method identity with ObjectValue.prototype.GetPrototypeOf). -/
structure ProtoObj (n : Nat) where
  proto : Option (Fin n)
  Extensible : Bool
  ordinaryGetProto : Bool
deriving DecidableEq

/-- A finite heap of such objects, identified by position. -/
def ProtoHeap (n : Nat) := Fin n → ProtoObj n

/-- One step of prototype-chain traversal: `none` when the chain ends (null
prototype) or when the object's GetPrototypeOf is not the ordinary one (the
walk in the source stops there). -/
def protoStep (h : ProtoHeap n) : Option (Fin n) → Option (Fin n)
  | none => none
  | some q =>
    if (h q).ordinaryGetProto = false then none else (h q).proto

/-- Outcome of the source's prototype-chain while loop. -/
inductive WalkResult where
  | reachedO
  | terminated
  | fuelOut
deriving DecidableEq

/-- The while loop of OrdinarySetPrototypeOf with explicit fuel: stop with
done at null or at a non-ordinary GetPrototypeOf, return false on meeting O,
else follow the Prototype slot.  `fuelOut` marks runs the source never
finishes (a pre-existing cycle of ordinary objects avoiding O makes the
source loop forever). -/
def protoWalk (h : ProtoHeap n) (O : Fin n) : Nat → Option (Fin n) → WalkResult
  | 0, _ => .fuelOut
  | _ + 1, none => .terminated
  | fuel + 1, some p =>
    if p = O then .reachedO
    else if (h p).ordinaryGetProto = false then .terminated
    else protoWalk h O fuel ((h p).proto)

/-- OrdinarySetPrototypeOf (9.1.2.1,
src/src/abstract-ops/arraybuffer-objects.mts): accept a SameValue prototype,
reject on a non-extensible object, walk the chain from V rejecting when it
meets O, and otherwise install V.  Fuel n + 1 is enough for every walk the
source finishes on an n-object heap; `none` marks the diverging runs. -/
def OrdinarySetPrototypeOf (h : ProtoHeap n) (O : Fin n)
    (V : Option (Fin n)) : Option (Bool × ProtoHeap n) :=
  if V = (h O).proto then some (true, h)
  else if (h O).Extensible = false then some (false, h)
  else
    match protoWalk h O (n + 1) V with
    | .reachedO => some (false, h)
    | .terminated =>
        some (true, Function.update h O ({ h O with proto := V }))
    | .fuelOut => none

/-- A cycle of ordinary objects: some ordinary object lies on its own
prototype chain (within n steps, which loses nothing on an n-object heap). -/
def OrdCycle (h : ProtoHeap n) : Prop :=
  ∃ p : Fin n, (h p).ordinaryGetProto = true ∧
    ∃ k : Fin (n + 1), (protoStep h)^[(k : Nat)] ((h p).proto) = some p

/-- No cycle of ordinary objects. -/
def OrdAcyclic (h : ProtoHeap n) : Prop := ¬ OrdCycle h

instance (h : ProtoHeap n) : Decidable (OrdCycle h) := by
  unfold OrdCycle
  infer_instance

/-- Stepping from nothing stays nothing. -/
theorem protoStep_iterate_none (h : ProtoHeap n) (k : Nat) :
    (protoStep h)^[k] none = none :=
  Function.iterate_fixed rfl k

/-- A chain that meets O makes the source walk return false, given fuel
beyond the step count. -/
theorem protoWalk_of_reach (h : ProtoHeap n) (O : Fin n) :
    ∀ (k : Nat) (W : Option (Fin n)) (fuel : Nat),
      (protoStep h)^[k] W = some O → k < fuel →
      protoWalk h O fuel W = .reachedO := by
  intro k
  induction k with
  | zero =>
    intro W fuel hW hf
    match fuel, hf with
    | fuel + 1, _ =>
      rw [Function.iterate_zero_apply] at hW
      subst hW
      rw [protoWalk, if_pos rfl]
  | succ k ih =>
    intro W fuel hW hf
    match fuel, hf with
    | fuel + 1, hf =>
      match W with
      | none =>
        rw [protoStep_iterate_none] at hW
        cases hW
      | some q =>
        by_cases hq : q = O
        · rw [protoWalk, if_pos hq]
        · rw [Function.iterate_succ_apply] at hW
          rcases hord : (h q).ordinaryGetProto with _ | _
          · rw [show protoStep h (some q) = none from by
              rw [protoStep, if_pos hord]] at hW
            rw [protoStep_iterate_none] at hW
            cases hW
          · rw [show protoStep h (some q) = (h q).proto from by
              rw [protoStep, hord]; simp] at hW
            rw [protoWalk, if_neg hq, if_neg (by rw [hord]; simp)]
            exact ih ((h q).proto) fuel hW (by omega)

/-- Pigeonhole: a chain on an n-object heap that meets a target meets it
within n steps. -/
theorem reach_small (h : ProtoHeap n) (t : Fin n) (W : Option (Fin n))
    (hex : ∃ k, (protoStep h)^[k] W = some t) :
    ∃ k ≤ n, (protoStep h)^[k] W = some t := by
  classical
  have hkm : (protoStep h)^[Nat.find hex] W = some t := Nat.find_spec hex
  have hmin : ∀ j, j < Nat.find hex → (protoStep h)^[j] W ≠ some t :=
    fun j hj => Nat.find_min hex hj
  refine ⟨Nat.find hex, ?_, hkm⟩
  by_contra hgt
  rw [not_le] at hgt
  have hsome : ∀ j, j ≤ Nat.find hex → ((protoStep h)^[j] W).isSome = true := by
    intro j hj
    rcases hv : (protoStep h)^[j] W with _ | q
    · exfalso
      have hnone : (protoStep h)^[Nat.find hex] W = none := by
        have harr : Nat.find hex = (Nat.find hex - j) + j := by omega
        rw [harr, Function.iterate_add_apply, hv, protoStep_iterate_none]
      rw [hnone] at hkm
      cases hkm
    · rfl
  have hinj : Function.Injective (fun j : Fin (Nat.find hex) =>
      ((protoStep h)^[(j : Nat)] W).get (hsome j (le_of_lt j.isLt))) := by
    intro a b hab
    have hval : (protoStep h)^[(a : Nat)] W = (protoStep h)^[(b : Nat)] W := by
      have ha := Option.some_get (hsome a (le_of_lt a.isLt))
      have hb := Option.some_get (hsome b (le_of_lt b.isLt))
      rw [← ha, ← hb]
      simp only at hab
      rw [hab]
    by_contra hne
    have hak : (a : Nat) < Nat.find hex := a.isLt
    have hbk : (b : Nat) < Nat.find hex := b.isLt
    have hne2 : (a : Nat) ≠ (b : Nat) := fun hc => hne (Fin.ext hc)
    rcases Nat.lt_or_ge (a : Nat) (b : Nat) with hlt | hge
    · have hhit : (protoStep h)^[(a : Nat) + (Nat.find hex - (b : Nat))] W
          = some t := by
        rw [Nat.add_comm ((a : Nat)) (Nat.find hex - (b : Nat)),
          Function.iterate_add_apply, hval, ← Function.iterate_add_apply]
        have harr : Nat.find hex - (b : Nat) + (b : Nat) = Nat.find hex := by
          omega
        rw [harr]
        exact hkm
      exact hmin _ (by omega) hhit
    · have hlt2 : (b : Nat) < (a : Nat) := by omega
      have hhit : (protoStep h)^[(b : Nat) + (Nat.find hex - (a : Nat))] W
          = some t := by
        rw [Nat.add_comm ((b : Nat)) (Nat.find hex - (a : Nat)),
          Function.iterate_add_apply, ← hval, ← Function.iterate_add_apply]
        have harr : Nat.find hex - (a : Nat) + (a : Nat) = Nat.find hex := by
          omega
        rw [harr]
        exact hkm
      exact hmin _ (by omega) hhit
  have hcard := Fintype.card_le_of_injective _ hinj
  simp only [Fintype.card_fin] at hcard
  omega

/-- Two heaps that agree away from O run the same chain until O is met. -/
theorem stepAgree (h h2 : ProtoHeap n) (O : Fin n)
    (hag : ∀ q, q ≠ O → h2 q = h q) :
    ∀ (j : Nat) (W : Option (Fin n)),
      (∀ i, i < j → (protoStep h2)^[i] W ≠ some O) →
      (protoStep h)^[j] W = (protoStep h2)^[j] W := by
  intro j
  induction j with
  | zero =>
    intro W _
    rfl
  | succ j ih =>
    intro W hno
    rw [Function.iterate_succ_apply', Function.iterate_succ_apply']
    rw [ih W (fun i hi => hno i (Nat.lt_succ_of_lt hi))]
    rcases hv : (protoStep h2)^[j] W with _ | q
    · rfl
    · have hq : q ≠ O := by
        intro hqO
        exact hno j (Nat.lt_succ_self j) (by rw [hv, hqO])
      show (if (h q).ordinaryGetProto = false then none else (h q).proto) =
        (if (h2 q).ordinaryGetProto = false then none else (h2 q).proto)
      rw [hag q hq]

/-- Reaching O transfers between heaps that agree away from O. -/
theorem reachAgree (h h2 : ProtoHeap n) (O : Fin n)
    (hag : ∀ q, q ≠ O → h2 q = h q) (W : Option (Fin n))
    (hex : ∃ k, (protoStep h2)^[k] W = some O) :
    ∃ k, (protoStep h)^[k] W = some O := by
  classical
  refine ⟨Nat.find hex, ?_⟩
  rw [stepAgree h h2 O hag (Nat.find hex) W
    (fun i hi => Nat.find_min hex hi)]
  exact Nat.find_spec hex

instance (h : ProtoHeap n) : Decidable (OrdAcyclic h) := by
  unfold OrdAcyclic
  infer_instance

/-- C10: OrdinarySetPrototypeOf never creates a prototype cycle: when the
chain from V through objects with the ordinary GetPrototypeOf reaches the
ordinary receiver O of an ordinary-acyclic heap, the call returns false and
leaves the heap unchanged; a non-extensible receiver with a different
prototype likewise rejects unchanged; and every completed call preserves
ordinary-acyclicity, so chains of ordinary objects stay acyclic under every
sequence of calls. -/
theorem ordinarySetPrototypeOf_spec (h : ProtoHeap n) (O : Fin n)
    (V : Option (Fin n)) :
    ((∃ k, (protoStep h)^[k] V = some O) →
      (h O).ordinaryGetProto = true → OrdAcyclic h →
      OrdinarySetPrototypeOf h O V = some (false, h))
    ∧ ((h O).Extensible = false → V ≠ (h O).proto →
      OrdinarySetPrototypeOf h O V = some (false, h))
    ∧ (OrdAcyclic h → ∀ b h2,
      OrdinarySetPrototypeOf h O V = some (b, h2) → OrdAcyclic h2) := by
  refine ⟨?_, ?_, ?_⟩
  · intro hreach hOord hac
    obtain ⟨k, hk, hkr⟩ := reach_small h O V hreach
    have hVne : V ≠ (h O).proto := by
      intro hVeq
      exact hac ⟨O, hOord, ⟨k, Nat.lt_succ_of_le hk⟩,
        by rw [← hVeq]; exact hkr⟩
    have hwalk : protoWalk h O (n + 1) V = .reachedO :=
      protoWalk_of_reach h O k V (n + 1) hkr (Nat.lt_succ_of_le hk)
    rw [OrdinarySetPrototypeOf, if_neg hVne]
    by_cases hext : (h O).Extensible = false
    · rw [if_pos hext]
    · rw [if_neg hext, hwalk]
  · intro hext hne
    rw [OrdinarySetPrototypeOf, if_neg hne, if_pos hext]
  · intro hac b h2 hres
    rw [OrdinarySetPrototypeOf] at hres
    by_cases hVeq : V = (h O).proto
    · rw [if_pos hVeq] at hres
      have hh : h2 = h := (Prod.ext_iff.mp (Option.some.inj hres)).2.symm
      rw [hh]
      exact hac
    · rw [if_neg hVeq] at hres
      by_cases hext : (h O).Extensible = false
      · rw [if_pos hext] at hres
        have hh : h2 = h := (Prod.ext_iff.mp (Option.some.inj hres)).2.symm
        rw [hh]
        exact hac
      · rw [if_neg hext] at hres
        rcases hw : protoWalk h O (n + 1) V with _ | _ | _
        · rw [hw] at hres
          have hh : h2 = h := (Prod.ext_iff.mp (Option.some.inj hres)).2.symm
          rw [hh]
          exact hac
        · rw [hw] at hres
          have hh : h2 = Function.update h O ({ h O with proto := V }) :=
            (Prod.ext_iff.mp (Option.some.inj hres)).2.symm
          have hnr : ¬ ∃ k, (protoStep h)^[k] V = some O := by
            rintro ⟨k, hk⟩
            obtain ⟨k2, hk2, hk2r⟩ := reach_small h O V ⟨k, hk⟩
            have hrd := protoWalk_of_reach h O k2 V (n + 1) hk2r
              (Nat.lt_succ_of_le hk2)
            rw [hw] at hrd
            cases hrd
          rw [hh]
          set h2u : ProtoHeap n := Function.update h O ({ h O with proto := V })
            with hh2u
          have hag : ∀ q, q ≠ O → h2u q = h q := by
            intro q hq
            rw [hh2u]
            exact Function.update_noteq hq _ _
          have hO2 : h2u O = { h O with proto := V } := by
            rw [hh2u]
            exact Function.update_same _ _ _
          rintro ⟨p, hordp, k, hcyc⟩
          have hstep0 : protoStep h2u (some p) = (h2u p).proto := by
            show (if (h2u p).ordinaryGetProto = false then none
              else (h2u p).proto) = _
            rw [hordp]
            simp
          have hper : (protoStep h2u)^[(k : Nat) + 1] (some p) = some p := by
            rw [Function.iterate_succ_apply, hstep0]
            exact hcyc
          by_cases hOr : ∃ j, (protoStep h2u)^[j] (some p) = some O
          · obtain ⟨j, hj⟩ := hOr
            have hper2 : (protoStep h2u)^[j + ((k : Nat) + 1)] (some p) =
                some O := by
              rw [Function.iterate_add_apply, hper, hj]
            rcases hOord : (h2u O).ordinaryGetProto with _ | _
            · have hnext : (protoStep h2u)^[j + 1] (some p) = none := by
                rw [Function.iterate_succ_apply', hj]
                show (if (h2u O).ordinaryGetProto = false then none
                  else (h2u O).proto) = none
                rw [hOord]
                simp
              have hdead : (protoStep h2u)^[j + ((k : Nat) + 1)] (some p) =
                  none := by
                have harr : j + ((k : Nat) + 1) = (k : Nat) + (j + 1) := by
                  omega
                rw [harr, Function.iterate_add_apply, hnext,
                  protoStep_iterate_none]
              rw [hdead] at hper2
              cases hper2
            · have hnext : (protoStep h2u)^[j + 1] (some p) = V := by
                rw [Function.iterate_succ_apply', hj]
                show (if (h2u O).ordinaryGetProto = false then none
                  else (h2u O).proto) = V
                rw [hOord, hO2]
                simp
              have hreachV : (protoStep h2u)^[(k : Nat)] V = some O := by
                have harr : j + ((k : Nat) + 1) = (k : Nat) + (j + 1) := by
                  omega
                rw [harr, Function.iterate_add_apply, hnext] at hper2
                exact hper2
              exact hnr (reachAgree h h2u O hag V ⟨(k : Nat), hreachV⟩)
          · push_neg at hOr
            have hpO : p ≠ O := by
              intro hpo
              exact hOr 0 (by rw [Function.iterate_zero_apply, hpo])
            have hagree : ∀ j, (protoStep h)^[j] (some p) =
                (protoStep h2u)^[j] (some p) :=
              fun j => stepAgree h h2u O hag j (some p) (fun i _ => hOr i)
            have hperh : (protoStep h)^[(k : Nat) + 1] (some p) = some p := by
              rw [hagree]
              exact hper
            have hordph : (h p).ordinaryGetProto = true := by
              rw [← hag p hpO]
              exact hordp
            have hstep0h : protoStep h (some p) = (h p).proto := by
              show (if (h p).ordinaryGetProto = false then none
                else (h p).proto) = _
              rw [hordph]
              simp
            have hcych : (protoStep h)^[(k : Nat)] ((h p).proto) = some p := by
              rw [← hstep0h, ← Function.iterate_succ_apply]
              exact hperh
            obtain ⟨k2, hk2, hk2r⟩ := reach_small h p ((h p).proto)
              ⟨(k : Nat), hcych⟩
            exact hac ⟨p, hordph, ⟨k2, Nat.lt_succ_of_le hk2⟩, hk2r⟩
        · rw [hw] at hres
          cases hres

/-- Concrete check of `ordinarySetPrototypeOf_spec`: on a two-object heap
with object 1 pointing at object 0, setting the prototype of object 0 to
object 1 is refused and the heap survives unchanged. -/
theorem ordinarySetPrototypeOf_spec_witness :
    OrdinarySetPrototypeOf
      (fun i : Fin 2 => if i = 0 then ⟨none, true, true⟩
        else ⟨some 0, true, true⟩) 0 (some 1) =
      some (false, fun i : Fin 2 => if i = 0 then ⟨none, true, true⟩
        else ⟨some 0, true, true⟩) :=
  (ordinarySetPrototypeOf_spec
    (fun i : Fin 2 => if i = 0 then ⟨none, true, true⟩
      else ⟨some 0, true, true⟩) 0 (some 1)).1
    ⟨1, by decide⟩ (by decide) (by decide)

end Engine262
